import Mathlib

/-!
Shallow embedding of the `intervaltree` Python package (files
`src/intervaltree/interval.py` and `src/intervaltree/intervaltree.py`)
for checking the natural-language specification against the code.

Modelling conventions:
* Coordinates are rationals (`ℚ`).  The test inputs are Python floats with
  two decimal digits; on those inputs every comparison and every `x - 1`
  the code performs gives the same answer for IEEE doubles as for the
  exact decimal rationals (all inputs differ by at least 0.01 and
  subtracting the exactly-representable 1 from them is exact), so the
  rational model is faithful to the observed float behaviour.
* Payloads (`data`) are `Option String`; Python's `None` is `none`.
* Python `set` objects are modelled as duplicate-free lists kept sorted
  by the total order that `Interval.__cmp__` defines (begin, then end,
  then data, with `None` sorting below every string as in Python 2).
  Where the code iterates over a set (an order Python leaves
  unspecified), the model iterates in this sorted order.
* Python `dict` objects (the boundary table) are association lists
  sorted by key.
* A `Node`-or-`None` reference is one inductive type `NTree`, with
  constructor `nil` standing for Python `None`.
* Methods that can raise are modelled in `Except String`; mutating
  `Node` methods take a `fuel : Nat` argument because their recursion
  (rotate → srotate → add/remove → rotate) is not structural.  Running
  out of fuel yields the distinguished error "fuel", never a result.
-/

namespace ITree

/-- Python `Interval` from `src/intervaltree/interval.py`: an immutable triple
`(begin, end, data)`.  `end` is a Lean keyword, so the field is `end_`. -/
structure Interval where
  begin : ℚ
  end_ : ℚ
  data : Option String
deriving DecidableEq, Repr

/-- Python `Interval.contains_point`: `self.begin <= p < self.end`. -/
def Interval.contains_point (iv : Interval) (p : ℚ) : Bool :=
  iv.begin ≤ p ∧ p < iv.end_

/-- Python `Interval.overlaps(begin, end)` (the two-argument range form, lines
65-79 of interval.py): the four-way disjunction from the source. -/
def Interval.overlapsRange (iv : Interval) (b e : ℚ) : Bool :=
  (b ≤ iv.begin ∧ iv.begin < e) ∨
  (b < iv.end_ ∧ iv.end_ ≤ e) ∨
  (iv.begin ≤ b ∧ b < iv.end_) ∨
  (iv.begin < e ∧ e ≤ iv.end_)

/-- Python `Interval.overlaps(point)`: a single numeric argument falls through
to `contains_point`. -/
def Interval.overlapsPoint (iv : Interval) (p : ℚ) : Bool :=
  iv.contains_point p

/-- Python `Interval.contains_interval`. -/
def Interval.contains_interval (iv other : Interval) : Bool :=
  iv.begin ≤ other.begin ∧ iv.end_ ≥ other.end_

/-- Python `Interval.is_null`: `begin >= end`. -/
def Interval.is_null (iv : Interval) : Bool :=
  iv.begin ≥ iv.end_

/-- Python-2 comparison of `data` payloads as `Interval.__cmp__` performs
it: `None` (type name "NoneType") sorts below every string. -/
def dataLt : Option String → Option String → Bool
  | none, none => false
  | none, some _ => true
  | some _, none => false
  | some a, some b => a < b

/-- Strict total order on intervals following `Interval.__cmp__`:
by `begin`, then `end`, then `data`. -/
def Interval.ltb (a b : Interval) : Bool :=
  if a.begin ≠ b.begin then a.begin < b.begin
  else if a.end_ ≠ b.end_ then a.end_ < b.end_
  else dataLt a.data b.data

/-! ### Sorted duplicate-free lists standing for Python sets -/

/-- Insert into a sorted duplicate-free list (Python `set.add`). -/
def sinsert (iv : Interval) : List Interval → List Interval
  | [] => [iv]
  | x :: xs =>
    if iv = x then x :: xs
    else if Interval.ltb iv x then iv :: x :: xs
    else x :: sinsert iv xs

/-- Union of interval sets (used for `set.union` / `set.update`). -/
def sunion (xs ys : List Interval) : List Interval :=
  ys.foldl (fun acc iv => sinsert iv acc) xs

/-- Sort an interval list into the canonical order, discarding
duplicates (Python `sorted(set(...))`). -/
def ssort (xs : List Interval) : List Interval :=
  xs.foldl (fun acc iv => sinsert iv acc) []

/-- Set difference (Python `set - set`). -/
def sdiff (xs ys : List Interval) : List Interval :=
  xs.filter (fun iv => ¬ iv ∈ ys)

theorem mem_sinsert (a iv : Interval) (l : List Interval) :
    a ∈ sinsert iv l ↔ a = iv ∨ a ∈ l := by
  induction l with
  | nil => simp [sinsert]
  | cons x xs ih =>
    unfold sinsert
    by_cases h1 : iv = x
    · rw [if_pos h1]
      subst h1
      simp only [List.mem_cons]
      tauto
    · rw [if_neg h1]
      by_cases h2 : Interval.ltb iv x = true
      · rw [if_pos h2]
        simp only [List.mem_cons]
      · rw [if_neg h2]
        simp only [List.mem_cons, ih]
        tauto

/-! ### Boundary table: sorted association list ℚ → ℕ -/

/-- One `+1` step of `IntervalTree._add_boundaries` at key `k`. -/
def btInc (k : ℚ) : List (ℚ × Nat) → List (ℚ × Nat)
  | [] => [(k, 1)]
  | (q, n) :: rest =>
    if k = q then (q, n + 1) :: rest
    else if k < q then (k, 1) :: (q, n) :: rest
    else (q, n) :: btInc k rest

/-- One `-1`/delete step of `IntervalTree._remove_boundaries` at key `k`;
`none` models the `KeyError` Python raises when `k` is absent. -/
def btDec (k : ℚ) : List (ℚ × Nat) → Option (List (ℚ × Nat))
  | [] => none
  | (q, n) :: rest =>
    if k = q then
      if n = 1 then some rest else some ((q, n - 1) :: rest)
    else
      match btDec k rest with
      | none => none
      | some rest2 => some ((q, n) :: rest2)

/-- Lookup in the boundary table. -/
def btGet (k : ℚ) : List (ℚ × Nat) → Option Nat
  | [] => none
  | (q, n) :: rest => if k = q then some n else btGet k rest

/-- Python `_add_boundaries(interval)`: record both endpoints. -/
def addBoundaries (iv : Interval) (bt : List (ℚ × Nat)) : List (ℚ × Nat) :=
  btInc iv.end_ (btInc iv.begin bt)

/-- Python `_remove_boundaries(interval)`: drop both endpoints. -/
def removeBoundaries (iv : Interval) (bt : List (ℚ × Nat)) :
    Option (List (ℚ × Nat)) :=
  match btDec iv.begin bt with
  | none => none
  | some bt1 => btDec iv.end_ bt1

/-! ### Node structure

`Node` from intervaltree.py.  A `Node`-or-`None` reference is one
inductive type; `nil` is Python `None`.  The `balance` field is the
mutable attribute `self.balance` set by `refresh_balance`. -/

inductive NTree where
  | nil : NTree
  | node (x_center : ℚ) (s_center : List Interval) (l r : NTree)
      (balance : Int) : NTree
deriving DecidableEq, Repr

/-- Python truthiness of a node reference (`bool(self[i])`). -/
def NTree.isNode : NTree → Bool
  | .nil => false
  | .node _ _ _ _ _ => true

/-- Python `self[index]` (`Node.__getitem__`): left child on `False`/0, right
child on `True`/1.  On `nil` (unreachable in the modelled runs) we
return `nil`. -/
def NTree.get : NTree → Bool → NTree
  | .nil, _ => .nil
  | .node _ _ l _ _, false => l
  | .node _ _ _ r _, true => r

/-- Python `self[key] = value` (`Node.__setitem__`). -/
def NTree.set : NTree → Bool → NTree → NTree
  | .nil, _, _ => .nil
  | .node x s _ r b, false, c => .node x s c r b
  | .node x s l _ b, true, c => .node x s l c b

/-- The `balance` attribute (0 on `nil`, which the code never reads). -/
def NTree.balance : NTree → Int
  | .nil => 0
  | .node _ _ _ _ b => b

/-- The `x_center` attribute (junk 0 on `nil`, never read there). -/
def NTree.x_center : NTree → ℚ
  | .nil => 0
  | .node x _ _ _ _ => x

/-- The `s_center` attribute (empty on `nil`, never read there). -/
def NTree.s_center : NTree → List Interval
  | .nil => []
  | .node _ s _ _ _ => s

/-- Python `Node.refresh_balance` (lines 618-626): a presence-based
approximation, not a depth difference.  `self.balance =
bool(self[1]) - bool(self[0])`, then one further step toward the heavy
side when that child itself has a child. -/
def NTree.refresh_balance : NTree → NTree
  | .nil => .nil
  | .node x s l r _ =>
    let b0 : Int := (if r.isNode then 1 else 0) - (if l.isNode then 1 else 0)
    let b1 : Int :=
      if b0 < 0 then
        b0 - (if (l.get false).isNode ∨ (l.get true).isNode then 1 else 0)
      else b0
    let b2 : Int :=
      if b1 > 0 then
        b1 + (if (r.get false).isNode ∨ (r.get true).isNode then 1 else 0)
      else b1
    .node x s l r b2

/-- Python `Node.center_hit`: whether `interval` contains `self.x_center`. -/
def NTree.center_hit (t : NTree) (iv : Interval) : Bool :=
  iv.contains_point t.x_center

/-- Python `Node.hit_branch`: `1` (right, `true`) if `interval.begin >
self.x_center`, else `0` (left, `false`). -/
def NTree.hit_branch (t : NTree) (iv : Interval) : Bool :=
  iv.begin > t.x_center

/-- Python `Node.search_point(point, result)` (lines 801-813).  The method
mutates only the accumulator set; the returned tree is the object graph
after the call (queries rebuild it unchanged). -/
def NTree.search_point : NTree → ℚ → List Interval →
    (List Interval × NTree)
  | .nil, _, result => (result, .nil)
  | .node x s l r b, point, result =>
    let res1 := s.foldl
      (fun acc k =>
        if k.begin ≤ point ∧ point < k.end_ then sinsert k acc else acc)
      result
    if point < x ∧ l.isNode then
      let (res2, l2) := l.search_point point res1
      (res2, .node x s l2 r b)
    else if point > x ∧ r.isNode then
      let (res2, r2) := r.search_point point res1
      (res2, .node x s l r2 b)
    else
      (res1, .node x s l r b)

/-- Python `Node.search_overlap(point_list)` (lines 792-799): one shared
accumulator passed to `search_point` for each probe point. -/
def NTree.search_overlap (t : NTree) (points : List ℚ) :
    (List Interval × NTree) :=
  points.foldl
    (fun (acc : List Interval × NTree) j =>
      acc.2.search_point j acc.1)
    ([], t)

/-- Python `Node.contains_point(p)` (lines 930-938). -/
def NTree.containsPointQ : NTree → ℚ → (Bool × NTree)
  | .nil, _ => (false, .nil)
  | .node x s l r b, p =>
    if s.any (fun iv => iv.contains_point p) then
      (true, .node x s l r b)
    else if p > x then
      let (res, r2) := r.containsPointQ p
      (r.isNode && res, .node x s l r2 b)
    else
      let (res, l2) := l.containsPointQ p
      (l.isNode && res, .node x s l2 r b)

/-- Python `Node.all_children` / `all_children_helper` (lines 940-949):
collect every `s_center` of the subtree into one set. -/
def NTree.all_children : NTree → List Interval → List Interval
  | .nil, result => result
  | .node _ s l r _, result =>
    let res1 := s.foldl (fun acc iv => sinsert iv acc) result
    let res2 := l.all_children res1
    r.all_children res2

/-- Python `Node.verify(parents)` (lines 951-992): the node-level invariant
checker.  Returns the message of the first failing assertion. -/
def NTree.verifyNode : NTree → List ℚ → Except String Unit
  | .nil, _ => pure ()
  | .node x s l r b, parents => do
    if ¬ (|b| < 2) then
      throw "Rotation should have happened, but didn't!"
    let fresh := NTree.refresh_balance (.node x s l r b)
    if ¬ (b = fresh.balance) then
      throw "self.balance not set correctly!"
    if s = [] then
      throw "s_center is empty!"
    for iv in s do
      if ¬ (iv.begin < iv.end_) then
        throw "null interval in s_center"
      if ¬ (iv.overlapsPoint x) then
        throw "interval does not contain x_center"
      for parent in parents do
        if iv.contains_point parent then
          throw "Overlaps ancestor!"
    if l.isNode then
      if ¬ (l.x_center < x) then
        throw "Out-of-order left child!"
      l.verifyNode (parents ++ [x])
    if r.isNode then
      if ¬ (r.x_center > x) then
        throw "Out-of-order right child!"
      r.verifyNode (parents ++ [x])

/-- Override the `x_center` attribute (`child.x_center = child_x_center`
in `pop_greatest_child`). -/
def NTree.withXCenter : NTree → ℚ → NTree
  | .nil, _ => .nil
  | .node _ s l r b, x => .node x s l r b

/-- Override the `s_center` attribute. -/
def NTree.withSCenter : NTree → List Interval → NTree
  | .nil, _ => .nil
  | .node x _ l r b, s => .node x s l r b

/-- Collect the `s_center` sets of every node of the subtree whose
`x_center` equals `x`.  Used to model Python object identity: a node
object is identified across rotations by its immutable `x_center` (the
model reports an error if that identification is ambiguous). -/
def NTree.centersAt : NTree → ℚ → List (List Interval)
  | .nil, _ => []
  | .node x s l r _, q =>
    (if x = q then [s] else []) ++ l.centersAt q ++ r.centersAt q

/-- Python `Node.from_interval` (lines 569-575): a leaf with `x_center =
interval.begin`; `Node.__init__` runs `rotate`, which on a leaf only
refreshes `balance` to 0. -/
def NTree.from_interval (iv : Interval) : NTree :=
  .node iv.begin [iv] .nil .nil 0

/-- Python `max(s, key=attrgetter('end'))`: the first element of the
iteration attaining the largest `end`. -/
def maxByEnd (x : Interval) (l : List Interval) : Interval :=
  l.foldl (fun m iv => if iv.end_ > m.end_ then iv else m) x

mutual

/-- Python `Node.rotate` (lines 628-642). -/
def NTree.rotate (fuel : Nat) (t : NTree) : Except String NTree :=
  match fuel with
  | 0 => throw "fuel"
  | fuel + 1 =>
    let t := t.refresh_balance
    if |t.balance| < 2 then pure t
    else
      let my_heavy := t.balance > 0
      let child_heavy := (t.get my_heavy).balance > 0
      if my_heavy = child_heavy then NTree.srotate fuel t
      else NTree.drotate fuel t

/-- Python `Node.srotate` (lines 644-676), including the center-straddle
repair loop.  The loop iterates over `set(self.s_center)` evaluated
after the inner `rotate` call; the model recovers that set through the
demoted node's `x_center` (see `NTree.centersAt`). -/
def NTree.srotate (fuel : Nat) (t : NTree) : Except String NTree :=
  match fuel with
  | 0 => throw "fuel"
  | fuel + 1 => do
    let heavy := t.balance > 0
    let light := !heavy
    let save := t.get heavy
    if ¬ save.isNode then throw "AttributeError"
    let t1 := t.set heavy (save.get light)      -- self[heavy] = save[light]
    -- save[light] = self; save[light].refresh_balance()
    -- save[light] = save[light].rotate()
    let sl ← NTree.rotate fuel t1.refresh_balance
    let save := (save.set light sl).refresh_balance
    -- snapshot of self.s_center after the inner rotate: locate the
    -- original node object inside the rotated subtree by its center
    let snapshot ←
      match sl.centersAt t1.x_center with
      | [] => pure ([] : List Interval)  -- the node was pruned; empty
      | [s] => pure s
      | _ => throw "model-ambiguity"
    let save ← snapshot.foldlM
      (fun (sv : NTree) iv => do
        if sv.center_hit iv then
          let svl := sv.get light
          if ¬ svl.isNode then throw "AttributeError"
          let svl2 ← NTree.remove fuel svl iv
          let sv := sv.set light svl2
          let sv := if (sv.get light).isNode
                    then sv.set light (sv.get light).refresh_balance
                    else sv
          let sv ← NTree.add fuel sv iv
          pure sv.refresh_balance
        else pure sv)
      save
    pure save

/-- Python `Node.drotate` (lines 678-692). -/
def NTree.drotate (fuel : Nat) (t : NTree) : Except String NTree :=
  match fuel with
  | 0 => throw "fuel"
  | fuel + 1 => do
    let hv := t.balance > 0
    let child ← NTree.srotate fuel (t.get hv)
    let t1 := (t.set hv child).refresh_balance
    NTree.srotate fuel t1

/-- Python `Node.add` (lines 694-709). -/
def NTree.add (fuel : Nat) (t : NTree) (iv : Interval) :
    Except String NTree :=
  match fuel with
  | 0 => throw "fuel"
  | fuel + 1 =>
    match t with
    | .nil => throw "AttributeError"
    | .node x s l r b =>
      if NTree.center_hit (.node x s l r b) iv then
        pure (.node x (sinsert iv s) l r b)
      else
        let direction := NTree.hit_branch (.node x s l r b) iv
        if ¬ ((NTree.get (.node x s l r b) direction).isNode) then
          pure (NTree.refresh_balance
            (NTree.set (.node x s l r b) direction (NTree.from_interval iv)))
        else do
          let c ← NTree.add fuel (NTree.get (.node x s l r b) direction) iv
          NTree.rotate fuel (NTree.set (.node x s l r b) direction c)

/-- Python `Node.remove` (lines 711-721). -/
def NTree.remove (fuel : Nat) (t : NTree) (iv : Interval) :
    Except String NTree :=
  match fuel with
  | 0 => throw "fuel"
  | fuel + 1 => do
    let (t2, _) ← NTree.remove_interval_helper fuel t iv true
    pure t2

/-- Python `Node.discard` (lines 723-731). -/
def NTree.discardNode (fuel : Nat) (t : NTree) (iv : Interval) :
    Except String NTree :=
  match fuel with
  | 0 => throw "fuel"
  | fuel + 1 => do
    let (t2, _) ← NTree.remove_interval_helper fuel t iv false
    pure t2

/-- Python `Node.remove_interval_helper` (lines 733-790).  The Python `done`
list (mutated to signal that no further rebalancing is needed) is
modelled as the returned Bool. -/
def NTree.remove_interval_helper (fuel : Nat) (t : NTree) (iv : Interval)
    (shouldRaiseError : Bool) : Except String (NTree × Bool) :=
  match fuel with
  | 0 => throw "fuel"
  | fuel + 1 =>
    match t with
    | .nil => throw "AttributeError"
    | .node x s l r b =>
      if NTree.center_hit (.node x s l r b) iv then
        if ¬ shouldRaiseError ∧ iv ∉ s then
          pure (.node x s l r b, true)
        else if iv ∉ s then
          throw "KeyError"
        else
          let s2 := s.erase iv
          if s2 ≠ [] then
            pure (.node x s2 l r b, true)
          else do
            let p ← NTree.prune fuel (.node x s2 l r b)
            pure (p, false)
      else
        let direction := NTree.hit_branch (.node x s l r b) iv
        if ¬ ((NTree.get (.node x s l r b) direction).isNode) then
          if shouldRaiseError then throw "ValueError"
          else pure (.node x s l r b, true)
        else do
          let (c, done) ← NTree.remove_interval_helper fuel
            (NTree.get (.node x s l r b) direction) iv shouldRaiseError
          let t2 := NTree.set (.node x s l r b) direction c
          if ¬ done then do
            let t3 ← NTree.rotate fuel t2
            pure (t3, false)
          else
            pure (t2, true)

/-- Python `Node.prune` (lines 815-854). -/
def NTree.prune (fuel : Nat) (t : NTree) : Except String NTree :=
  match fuel with
  | 0 => throw "fuel"
  | fuel + 1 =>
    match t with
    | .nil => throw "AttributeError"
    | .node x s l r b =>
      if ¬ l.isNode ∨ ¬ r.isNode then
        -- direction = not self[0]; graft the other branch here
        pure (NTree.get (.node x s l r b) (¬ l.isNode))
      else do
        let (heir, l2) ← NTree.pop_greatest_child fuel l
        match heir with
        | .nil => throw "AttributeError"
        | .node hx hs _ _ hb =>
          -- (heir[0], heir[1]) = (self[0], self[1])
          let heir2 := NTree.refresh_balance (.node hx hs l2 r hb)
          NTree.rotate fuel heir2

/-- Python `Node.pop_greatest_child` (lines 856-928). -/
def NTree.pop_greatest_child (fuel : Nat) (t : NTree) :
    Except String (NTree × NTree) :=
  match fuel with
  | 0 => throw "fuel"
  | fuel + 1 =>
    match t with
    | .nil => throw "AttributeError"
    | .node x s l r b =>
      if ¬ r.isNode then
        match s with
        | [] => throw "ValueError"  -- max() of an empty set
        | s0 :: srest => do
          let max_iv := maxByEnd s0 srest
          let max_iv_len := max_iv.end_ - max_iv.begin
          let child_x := if max_iv_len ≤ 1 then max_iv.begin
                         else max_iv.end_ - 1
          let contained := (s0 :: srest).filter
            (fun iv => iv.contains_point child_x)
          let child0 ← NTree.from_intervals fuel contained
          if ¬ child0.isNode then throw "AttributeError"
          let child := child0.withXCenter child_x
          let s2 := sdiff (s0 :: srest) child.s_center
          if (child.get false).isNode then throw "AssertionError"
          if (child.get true).isNode then throw "AssertionError"
          if s2 ≠ [] then
            pure (child, .node x s2 l r b)
          else
            pure (child, l)
      else do
        let (gc, r2) ← NTree.pop_greatest_child fuel r
        let t1 := NTree.refresh_balance (NTree.set (.node x s l r b) true r2)
        let new_self ← NTree.rotate fuel t1
        -- migration loop over a snapshot of new_self.s_center
        let snapshot := new_self.s_center
        let (ns, gc2) ← snapshot.foldlM
          (fun (acc : NTree × NTree) iv => do
            if iv.contains_point acc.2.x_center then
              let ns2 := acc.1.withSCenter (acc.1.s_center.erase iv)
              let gc2 ← NTree.add fuel acc.2 iv
              pure (ns2, gc2)
            else pure acc)
          (new_self, gc)
        if ns.s_center ≠ [] then
          pure (gc2, ns)
        else do
          let p ← NTree.prune fuel ns
          pure (gc2, p)

/-- Python `Node.from_intervals` (lines 577-583). -/
def NTree.from_intervals (fuel : Nat) (ivs : List Interval) :
    Except String NTree :=
  match fuel with
  | 0 => throw "fuel"
  | fuel + 1 =>
    if ivs = [] then pure .nil
    else NTree.init_from_sorted fuel (ssort ivs)

/-- Python `Node.init_from_sorted` (lines 585-603); `intervals[len/2]` uses
Python-2 floor division. -/
def NTree.init_from_sorted (fuel : Nat) (ivs : List Interval) :
    Except String NTree :=
  match fuel with
  | 0 => throw "fuel"
  | fuel + 1 =>
    match ivs with
    | [] => pure .nil
    | v0 :: vrest => do
      let lst := v0 :: vrest
      let center_iv := lst.getD (lst.length / 2) v0
      let x := center_iv.begin
      let s_left := lst.filter (fun k => k.end_ ≤ x)
      let s_right := lst.filter (fun k => ¬ k.end_ ≤ x ∧ k.begin > x)
      let s_c := lst.filter (fun k => ¬ k.end_ ≤ x ∧ ¬ k.begin > x)
      let ln ← NTree.from_intervals fuel s_left
      let rn ← NTree.from_intervals fuel s_right
      NTree.rotate fuel (.node x s_c ln rn 0)

end

/-! ### The `IntervalTree` facade -/

structure IntervalTree where
  all_intervals : List Interval
  top_node : NTree
  boundary_table : List (ℚ × Nat)
deriving DecidableEq, Repr

/-- Python `IntervalTree()` with no argument. -/
def IntervalTree.empty : IntervalTree :=
  { all_intervals := [], top_node := .nil, boundary_table := [] }

/-- Python `IntervalTree(intervals)` (lines 71-84): dedup into a set, bulk
build via `Node.from_intervals`, then index every boundary. -/
def IntervalTree.init (fuel : Nat) (ivs : List Interval) :
    Except String IntervalTree := do
  let all := ssort ivs
  let top ← NTree.from_intervals fuel all
  let bt := all.foldl (fun bt iv => addBoundaries iv bt) []
  pure { all_intervals := all, top_node := top, boundary_table := bt }

/-- Python `iv in tree` (`__contains__`, lines 482-493): membership in
`all_intervals` only. -/
def IntervalTree.containsItv (t : IntervalTree) (iv : Interval) : Bool :=
  iv ∈ t.all_intervals

/-- Python `IntervalTree.add` (lines 121-142).  Mirrors the mutation order:
membership test, `all_intervals.add`, node insertion,
`_add_boundaries`. -/
def IntervalTree.add (fuel : Nat) (t : IntervalTree) (iv : Interval) :
    Except String IntervalTree := do
  if iv ∈ t.all_intervals then pure t
  else do
    let all2 := sinsert iv t.all_intervals
    let top2 ←
      if ¬ t.top_node.isNode then pure (NTree.from_interval iv)
      else NTree.add fuel t.top_node iv
    pure { all_intervals := all2, top_node := top2,
           boundary_table := addBoundaries iv t.boundary_table }

/-- Python `IntervalTree.addi(begin, end, data)` (lines 144-150). -/
def IntervalTree.addi (fuel : Nat) (t : IntervalTree) (b e : ℚ)
    (d : Option String := none) : Except String IntervalTree :=
  t.add fuel ⟨b, e, d⟩

/-- Python `IntervalTree.remove` (lines 162-176): `ValueError` when absent;
then node removal, membership erase, boundary unindex. -/
def IntervalTree.remove (fuel : Nat) (t : IntervalTree) (iv : Interval) :
    Except String IntervalTree := do
  if iv ∉ t.all_intervals then throw "ValueError"
  else do
    let top2 ←
      if ¬ t.top_node.isNode then throw "AttributeError"
      else NTree.remove fuel t.top_node iv
    let all2 := t.all_intervals.erase iv
    match removeBoundaries iv t.boundary_table with
    | none => throw "KeyError"
    | some bt2 =>
      pure { all_intervals := all2, top_node := top2,
             boundary_table := bt2 }

/-- Python `IntervalTree.removei(begin, end, data)` (lines 178-184). -/
def IntervalTree.removei (fuel : Nat) (t : IntervalTree) (b e : ℚ)
    (d : Option String := none) : Except String IntervalTree :=
  t.remove fuel ⟨b, e, d⟩

/-- Python `IntervalTree.discard` (lines 186-197). -/
def IntervalTree.discard (fuel : Nat) (t : IntervalTree) (iv : Interval) :
    Except String IntervalTree := do
  if iv ∉ t.all_intervals then pure t
  else do
    let all2 := t.all_intervals.erase iv
    let top2 ←
      if ¬ t.top_node.isNode then throw "AttributeError"
      else NTree.discardNode fuel t.top_node iv
    match removeBoundaries iv t.boundary_table with
    | none => throw "KeyError"
    | some bt2 =>
      pure { all_intervals := all2, top_node := top2,
             boundary_table := bt2 }

/-- Python `IntervalTree.items` (lines 333-339): a snapshot copy of
`all_intervals`; the tree is returned as the post-call state. -/
def IntervalTree.items (t : IntervalTree) :
    (List Interval × IntervalTree) :=
  (t.all_intervals, t)

/-- Python `__contains__` as a state-threaded query. -/
def IntervalTree.containsQ (t : IntervalTree) (iv : Interval) :
    (Bool × IntervalTree) :=
  (decide (iv ∈ t.all_intervals), t)

/-- Python `IntervalTree.search(point)` (lines 349-362, `end is None` and
`begin` a number): `self.top_node.search_point(begin, set())`.  On an
empty tree Python raises `AttributeError`. -/
def IntervalTree.searchPoint (t : IntervalTree) (p : ℚ) :
    (Except String (List Interval) × IntervalTree) :=
  match t.top_node with
  | .nil => (throw "AttributeError", t)
  | n =>
    let (res, n2) := n.search_point p []
    (pure res, { t with top_node := n2 })

/-- Python `IntervalTree.search(begin, end, strict)` (lines 366-381):
`search_point(begin)` unioned with `search_overlap` over the boundary
keys strictly inside the range, then the strict (envelopment)
filter. -/
def IntervalTree.searchRange (t : IntervalTree) (b e : ℚ)
    (strict : Bool := false) :
    (Except String (List Interval) × IntervalTree) :=
  match t.top_node with
  | .nil => (throw "AttributeError", t)
  | n =>
    let (res1, n1) := n.search_point b []
    let bounds := (t.boundary_table.map Prod.fst).filter
      (fun k => b < k ∧ k < e)
    let (res2, n2) := n1.search_overlap bounds
    let res := sunion res1 res2
    let res := if strict then
        res.filter (fun iv => iv.begin ≥ b ∧ iv.end_ ≤ e)
      else res
    (pure res, { t with top_node := n2 })

/-- Python `tree[point]` (`__getitem__` with a non-slice index). -/
def IntervalTree.getPoint (t : IntervalTree) (p : ℚ) :
    (Except String (List Interval) × IntervalTree) :=
  t.searchPoint p

/-- Python `tree[a:b]` (`__getitem__` with a slice). -/
def IntervalTree.getSlice (t : IntervalTree) (b e : ℚ) :
    (Except String (List Interval) × IntervalTree) :=
  t.searchRange b e

/-- Python `IntervalTree.overlaps_point` (lines 271-279). -/
def IntervalTree.overlaps_point (t : IntervalTree) (p : ℚ) :
    (Bool × IntervalTree) :=
  if t.all_intervals.length = 0 then (false, t)
  else
    let (res, n2) := t.top_node.containsPointQ p
    (res, { t with top_node := n2 })

/-- Python `IntervalTree.overlaps_range` (lines 281-298): probe `begin`, then
every boundary key `k` with `begin <= k < end`. -/
def IntervalTree.overlaps_range (t : IntervalTree) (b e : ℚ) :
    (Bool × IntervalTree) :=
  if t.all_intervals.length = 0 then (false, t)
  else
    let (hit, t1) := t.overlaps_point b
    if hit then (true, t1)
    else
      let bounds := (t.boundary_table.map Prod.fst).filter
        (fun k => b ≤ k ∧ k < e)
      bounds.foldl
        (fun (acc : Bool × IntervalTree) k =>
          if acc.1 then acc
          else acc.2.overlaps_point k)
        (false, t1)

/-- Python `IntervalTree.verify` (lines 412-452). -/
def IntervalTree.verify (t : IntervalTree) : Except String Unit := do
  if t.all_intervals ≠ [] then
    if ssort (t.top_node.all_children []) ≠ ssort t.all_intervals then
      throw "the tree and the membership set are out of sync!"
    let bound_check := t.all_intervals.foldl
      (fun bc iv => addBoundaries iv bc) []
    if bound_check.map Prod.fst ≠ t.boundary_table.map Prod.fst then
      throw "boundary_table is out of sync with the intervals in the tree!"
    for kv in t.boundary_table do
      if btGet kv.1 bound_check ≠ some kv.2 then
        throw "boundary_table value is wrong!"
    t.top_node.verifyNode []
  else do
    if t.boundary_table ≠ [] then
      throw "boundary table should be empty!"
    if t.top_node.isNode then
      throw "top_node isn't None!"

/-- Python `IntervalTree.split_overlaps` (lines 300-331): rebuild the interval
set by splitting at every boundary, but leave `boundary_table`
untouched (the code's own comment: `# self.boundary_table unchanged`). -/
def IntervalTree.split_overlaps (fuel : Nat) (t : IntervalTree) :
    Except String IntervalTree := do
  if t.all_intervals.length = 0 then pure t
  else if t.boundary_table.length = 2 then pure t
  else do
    let bounds := t.boundary_table.map Prod.fst
    let pairs := bounds.zip bounds.tail
    let temp ← pairs.foldlM
      (fun (temp : IntervalTree) (lu : ℚ × ℚ) => do
        match (t.searchPoint lu.1).1 with
        | .error e => throw e
        | .ok hits =>
          hits.foldlM
            (fun (temp : IntervalTree) iv =>
              temp.add fuel ⟨lu.1, lu.2, iv.data⟩)
            temp)
      IntervalTree.empty
    pure { all_intervals := temp.all_intervals, top_node := temp.top_node,
           boundary_table := t.boundary_table }

/-! ### Operation sequences -/

/-- A public mutation step used by the modelled test scenarios. -/
inductive Op where
  | addi (b e : ℚ)
  | removei (b e : ℚ)
deriving DecidableEq, Repr

/-- Apply one operation. -/
def IntervalTree.step (fuel : Nat) (t : IntervalTree) :
    Op → Except String IntervalTree
  | .addi b e => t.addi fuel b e
  | .removei b e => t.removei fuel b e

/-- Apply the operations in order, running `verify()` after each, as
`test_sequence` of issue25_test.py does. -/
def runVerified (fuel : Nat) (ops : List Op) (t : IntervalTree) :
    Except String IntervalTree :=
  ops.foldlM
    (fun t op => do
      let t2 ← t.step fuel op
      t2.verify
      pure t2)
    t

/-! ### Claim-side semantic definitions -/

/-- Subtree depth as the specification defines it: an absent child has
depth 0 and a node's depth is 1 plus the maximum child depth. -/
def NTree.subtreeDepth : NTree → Nat
  | .nil => 0
  | .node _ _ l r _ => 1 + max l.subtreeDepth r.subtreeDepth

/-- The presence-based balance value `refresh_balance` computes from a
pair of children. -/
def crudeBalance (l r : NTree) : Int :=
  let b0 : Int := (if r.isNode then 1 else 0) - (if l.isNode then 1 else 0)
  let b1 : Int :=
    if b0 < 0 then
      b0 - (if (l.get false).isNode ∨ (l.get true).isNode then 1 else 0)
    else b0
  if b1 > 0 then
    b1 + (if (r.get false).isNode ∨ (r.get true).isNode then 1 else 0)
  else b1

/-- Every node's stored `balance` equals the presence-based value
`refresh_balance` would compute from its current children. -/
def NTree.balFresh : NTree → Bool
  | .nil => true
  | .node _ _ l r b => (b = crudeBalance l r) && l.balFresh && r.balFresh

/-- Both subtrees satisfy `balFresh`; the root's own field may be
stale. -/
def NTree.childFresh : NTree → Bool
  | .nil => true
  | .node _ _ l r _ => l.balFresh && r.balFresh

/-- The subtree with every `s_center` erased: operations that report
`done` leave this part of the state untouched. -/
def NTree.shape : NTree → NTree
  | .nil => .nil
  | .node x _ l r b => .node x [] l.shape r.shape b

/-- All intervals stored in the subtree, root first. -/
def NTree.allIvs : NTree → List Interval
  | .nil => []
  | .node _ s l r _ => s ++ l.allIvs ++ r.allIvs

/-- All node centers of the subtree. -/
def NTree.centers : NTree → List ℚ
  | .nil => []
  | .node x _ l r _ => x :: (l.centers ++ r.centers)

/-- Structural well-formedness of a node tree: the invariants of
spec §8 that `verify` checks (interval seating, no straddling of any
ancestor center, center ordering), with the center ordering taken over
whole subtrees. -/
def NTree.wfb : NTree → Bool
  | .nil => true
  | .node x s l r _ =>
    (s ≠ []) &&
    s.all (fun iv => iv.contains_point x) &&
    (l.allIvs).all (fun iv => ¬ iv.contains_point x) &&
    (r.allIvs).all (fun iv => ¬ iv.contains_point x) &&
    (l.centers).all (fun c => c < x) &&
    (r.centers).all (fun c => x < c) &&
    l.wfb && r.wfb

/-- Semantic overlap of a stored interval with the half-open query
range `[b, e)`: the two ranges share at least one point. -/
def overlapsSem (iv : Interval) (b e : ℚ) : Prop :=
  ∃ p : ℚ, (b ≤ p ∧ p < e) ∧ (iv.begin ≤ p ∧ p < iv.end_)

/-- Modelled from the spec: `chop(begin, end)` is absent from this
snapshot of `src/intervaltree/intervaltree.py` (only the spec §4.4.2
describes it).  Per the spec's words: remove every interval overlapping
`[begin, end)`; an interval crossing the lower edge keeps its lower
portion `[iv.begin, begin)`, one crossing the upper edge keeps
`[end, iv.end)`, one enveloping the range produces both fragments, and
fragments keep the original payload. -/
def IntervalTree.chop (fuel : Nat) (t : IntervalTree) (b e : ℚ) :
    Except String IntervalTree := do
  let hits := t.all_intervals.filter
    (fun iv => iv.begin < e ∧ b < iv.end_)
  let t ← hits.foldlM (fun t iv => t.remove fuel iv) t
  let t ← hits.foldlM
    (fun t iv => do
      let t ← if iv.begin < b then t.add fuel ⟨iv.begin, b, iv.data⟩
              else pure t
      if iv.end_ > e then t.add fuel ⟨e, iv.end_, iv.data⟩
      else pure t)
    t
  pure t

/-! ### Concrete scenarios used by the claims -/

/-- The issue-25 float sequence.  The Python floats are modelled as the
exact two-decimal rationals; every comparison and `end - 1` the code
performs on them agrees with IEEE-double behaviour (all inputs differ
by at least 0.01, and subtracting the exactly-representable 1 is exact
at these magnitudes). -/
def issue25ops : List Op := [
  .addi (mkRat 637 100) (mkRat 1137 100),
  .addi (mkRat 1209 100) (mkRat 1709 100),
  .addi (mkRat 568 100) (mkRat 1158 100),
  .removei (mkRat 637 100) (mkRat 1137 100),
  .addi (mkRat 1323 100) (mkRat 1823 100),
  .removei (mkRat 1209 100) (mkRat 1709 100),
  .addi (mkRat 429 100) (mkRat 829 100),
  .removei (mkRat 1323 100) (mkRat 1823 100),
  .addi (mkRat 1204 100) (mkRat 1704 100),
  .addi (mkRat 939 100) (mkRat 1339 100),
  .removei (mkRat 568 100) (mkRat 1158 100),
  .removei (mkRat 429 100) (mkRat 829 100),
  .removei (mkRat 1204 100) (mkRat 1704 100),
  .addi (mkRat 566 100) (mkRat 966 100),
  .addi (mkRat 865 100) (mkRat 1365 100),
  .removei (mkRat 939 100) (mkRat 1339 100),
  .addi (mkRat 1649 100) (mkRat 2083 100),
  .addi (mkRat 1142 100) (mkRat 1642 100),
  .addi (mkRat 538 100) (mkRat 1038 100),
  .addi (mkRat 357 100) (mkRat 947 100),
  .removei (mkRat 865 100) (mkRat 1365 100),
  .removei (mkRat 566 100) (mkRat 966 100)]

/-- True exactly on a successful result. -/
def exceptOk {α : Type} : Except String α → Bool
  | .ok _ => true
  | .error _ => false

/-- The raised message of a failed result, `none` on success. -/
def exceptErr {α : Type} : Except String α → Option String
  | .ok _ => none
  | .error e => some e

/-- An all-integer five-step build whose subsequent `removei(12,13)`
makes `Node.prune` pop a node whose freshly built heir has a right
child, tripping `assert not child[1]` in `pop_greatest_child`. -/
def pruneCrashOps : List Op :=
  [.addi 12 13, .addi 6 11, .addi 3 11, .addi 5 11, .addi 14 15]

/-- Four inserts whose final tree has a root with children of depths 1
and 2: the presence-based balance field stays 0 there. -/
def fourAdds : List Op := [.addi 1 2, .addi 3 4, .addi 5 6, .addi 7 8]

/-- Five inserts building a tree whose root holds the spanning interval
`[2,8)`, has a lone left leaf and a right subtree of depth 2; removing
the left leaf then triggers `drotate`/`srotate` whose repair loop
(lines 667-676) empties the demoted node and leaves the promoted node
resting at balance 2. -/
def tallOps : List Op :=
  [.addi 2 8, .addi 0 1, .addi 7 9, .addi 10 11, .addi 12 13]

/-- Run a list of public operations without intervening `verify`
calls. -/
def runOps (fuel : Nat) (ops : List Op) (t : IntervalTree) :
    Except String IntervalTree :=
  ops.foldlM (fun t op => t.step fuel op) t

/-- The tree the five `tallOps` insertions build (checked below by
kernel evaluation). -/
def tallTree : IntervalTree :=
  { all_intervals := [⟨0, 1, none⟩, ⟨2, 8, none⟩, ⟨7, 9, none⟩,
      ⟨10, 11, none⟩, ⟨12, 13, none⟩],
    top_node := NTree.node 2 [⟨2, 8, none⟩]
      (NTree.node 0 [⟨0, 1, none⟩] NTree.nil NTree.nil 0)
      (NTree.node 10 [⟨10, 11, none⟩]
        (NTree.node 7 [⟨7, 9, none⟩] NTree.nil NTree.nil 0)
        (NTree.node 12 [⟨12, 13, none⟩] NTree.nil NTree.nil 0) 0) 0,
    boundary_table := [(0, 1), (1, 1), (2, 1), (7, 1), (8, 1), (9, 1),
      (10, 1), (11, 1), (12, 1), (13, 1)] }

/-- The tree `removei(0,1)` leaves behind on `tallTree` (checked below
by kernel evaluation): the top node rests with balance 2, a missing
left child and a right child of depth 2. -/
def tiltTree : IntervalTree :=
  { all_intervals := [⟨2, 8, none⟩, ⟨7, 9, none⟩, ⟨10, 11, none⟩,
      ⟨12, 13, none⟩],
    top_node := NTree.node 7 [⟨2, 8, none⟩, ⟨7, 9, none⟩] NTree.nil
      (NTree.node 10 [⟨10, 11, none⟩] NTree.nil
        (NTree.node 12 [⟨12, 13, none⟩] NTree.nil NTree.nil 0) 1) 2,
    boundary_table := [(2, 1), (7, 1), (8, 1), (9, 1), (10, 1),
      (11, 1), (12, 1), (13, 1)] }

/-- A small consistent tree used as a witness input: one stored
interval `[0,1)`. -/
def c2WitnessTree : IntervalTree :=
  { all_intervals := [⟨0, 1, none⟩],
    top_node := NTree.node 0 [⟨0, 1, none⟩] NTree.nil NTree.nil 0,
    boundary_table := [(0, 1), (1, 1)] }

/-! ## Theorems -/

set_option maxRecDepth 200000
set_option maxHeartbeats 4000000

/-- C1: the seating/pruning invariants are not maintained: after the
five verified integer insertions of `pruneCrashOps`, the public
mutation `removei(12,13)` center-hits the root, empties its `s_center`,
and the pruning repair crashes with `AssertionError` inside
`pop_greatest_child` (the freshly built heir has a right child), so the
mutation aborts leaving the root's `s_center` empty and the membership
set out of sync. -/
theorem c1_pruning_repair_fails :
    exceptOk (runVerified 60 pruneCrashOps IntervalTree.empty) = true ∧
    ((runVerified 60 pruneCrashOps IntervalTree.empty).toOption.map
      (fun t =>
        exceptErr (t.removei 60 12 13) == some "AssertionError" &&
        t.top_node.center_hit ⟨12, 13, none⟩ &&
        (t.top_node.s_center.erase ⟨12, 13, none⟩).isEmpty &&
        exceptErr (NTree.prune 60 (t.top_node.withSCenter [])) ==
          some "AssertionError")
      = some true) := by
  constructor
  · with_unfolding_all decide
  · with_unfolding_all decide

/-- C3: the issue-25 float sequence does not complete: the first twenty
operations succeed with `verify()` passing after each, but the
twenty-first, `removei(8.65, 13.65)`, raises `AssertionError` inside
`pop_greatest_child` instead of completing. -/
theorem c3_issue25_sequence_crashes :
    exceptOk (runVerified 60 (issue25ops.take 20) IntervalTree.empty)
      = true ∧
    exceptErr (runVerified 60 (issue25ops.take 21) IntervalTree.empty)
      = some "AssertionError" ∧
    exceptErr (runVerified 60 issue25ops IntervalTree.empty)
      = some "AssertionError" := by
  refine ⟨?_, ?_, ?_⟩
  · with_unfolding_all decide
  · with_unfolding_all decide
  · with_unfolding_all decide

/-- C4 counterexample, refuting both conjuncts of the claim.  First
conjunct: after the four public insertions of `fourAdds` (each
completing normally, `verify()` passing), the root node's `balance`
field is 0 although its right subtree has depth 2 and its left subtree
depth 1, so `balance` is not `depth(right)-depth(left)`.  Remaining
conjuncts: the five insertions of `tallOps` complete with `verify()`
passing and build `tallTree`; the public operation `removei(0,1)` then
completes normally and leaves `tiltTree`, whose top node rests with
`balance = 2` (the field is fresh: `refresh_balance` recomputes the
same value) because the `srotate` repair loop (lines 667-676) empties
the demoted node and only calls `refresh_balance`, never `rotate` - so
`|balance| <= 1` does not hold at rest either, and the tree's own
`verify()` rejects the state. -/
theorem c4_balance_claim_refuted :
    ((runVerified 60 fourAdds IntervalTree.empty).toOption.map
      (fun t =>
        match t.top_node with
        | .node _ _ l r b =>
          (b == 0) && (l.subtreeDepth == 1) && (r.subtreeDepth == 2)
        | .nil => false)
      = some true) ∧
    exceptOk (runVerified 60 tallOps IntervalTree.empty) = true ∧
    runOps 60 tallOps IntervalTree.empty = Except.ok tallTree ∧
    IntervalTree.removei 60 tallTree 0 1 = Except.ok tiltTree ∧
    tiltTree.top_node.balance = 2 ∧
    tiltTree.top_node.balFresh = true ∧
    (tiltTree.top_node.get false).subtreeDepth = 0 ∧
    (tiltTree.top_node.get true).subtreeDepth = 2 ∧
    exceptErr tiltTree.verify
      = some "Rotation should have happened, but didn't!" := by
  refine ⟨?_, ?_, ?_, ?_, ?_, ?_, ?_, ?_, ?_⟩
  · with_unfolding_all decide
  · with_unfolding_all decide
  · with_unfolding_all rfl
  · with_unfolding_all rfl
  · with_unfolding_all decide
  · with_unfolding_all decide
  · with_unfolding_all decide
  · with_unfolding_all decide
  · with_unfolding_all decide

/-- C5: after `split_overlaps` on the tree `{[0,10), [5,15)}` the
stored intervals become `{[0,5), [5,10), [10,15)}`, five occurs as an
endpoint of two of them, yet `boundary_table[5]` is still 1 (the method
leaves the table untouched), and the tree's own `verify()` rejects the
state. -/
theorem c5_split_overlaps_leaves_boundary_stale :
    (((do
        let t ← IntervalTree.empty.addi 60 0 10
        let t ← t.addi 60 5 15
        t.split_overlaps 60 : Except String IntervalTree)).toOption.map
      (fun t =>
        (t.all_intervals ==
          [⟨0, 5, none⟩, ⟨5, 10, none⟩, ⟨10, 15, none⟩]) &&
        (t.boundary_table == [(0, 1), (5, 1), (10, 1), (15, 1)]) &&
        (btGet 5 (t.all_intervals.foldl
            (fun bc iv => addBoundaries iv bc) []) == some 2) &&
        (exceptErr t.verify ==
          some "boundary_table value is wrong!"))
      = some true) := by
  with_unfolding_all decide

/-- C6: adding the null intervals `Interval(1,0)` and `Interval(1,1)`
does not fail: `addi` completes and mutates the membership set, the
node structure and the boundary table (no validation exists in
`Interval.__new__` or `IntervalTree.add`). -/
theorem c6_null_interval_is_accepted :
    ((IntervalTree.empty.addi 60 1 0).toOption.map
      (fun t =>
        (t.all_intervals == [⟨1, 0, none⟩]) &&
        (t.top_node == NTree.node 1 [⟨1, 0, none⟩] NTree.nil NTree.nil 0) &&
        (t.boundary_table == [(0, 1), (1, 1)]))
      = some true) ∧
    ((IntervalTree.empty.addi 60 1 1).toOption.map
      (fun t => t.all_intervals == [⟨1, 1, none⟩])
      = some true) := by
  constructor
  · with_unfolding_all decide
  · with_unfolding_all decide

/-- C8 counterexample: for the null query range `[5,5)` against the
interval `[0,10)`, `Interval.overlaps` returns `True` although the two
ranges share no point. -/
theorem c8_null_query_range_returns_true :
    Interval.overlapsRange ⟨0, 10, none⟩ 5 5 = true ∧
    ¬ overlapsSem ⟨0, 10, none⟩ 5 5 := by
  constructor
  · decide
  · rintro ⟨p, ⟨h1, h2⟩, -⟩
    exact absurd (h1.trans_lt h2) (lt_irrefl 5)

/-- C8 amended: for a non-null interval and a non-null query range,
`Interval.overlaps(begin, end)` returns true exactly when the two
half-open ranges share at least one point; for a null query range it
can return true (see the counterexample). -/
theorem c8_overlaps_range_iff (iv : Interval) (b e : ℚ)
    (hiv : iv.begin < iv.end_) (hbe : b < e) :
    iv.overlapsRange b e = true ↔ overlapsSem iv b e := by
  unfold Interval.overlapsRange overlapsSem
  simp only [decide_eq_true_eq, Bool.or_eq_true, Bool.and_eq_true,
    decide_eq_true_eq]
  constructor
  · intro h
    rcases le_total b iv.begin with hb | hb
    · exact ⟨iv.begin, ⟨hb, by
        rcases h with ⟨-, h2⟩ | ⟨⟨h2, h3⟩ | ⟨⟨h2, h3⟩ | ⟨h2, h3⟩⟩⟩
        · exact h2
        · linarith
        · linarith
        · linarith⟩, le_refl _, hiv⟩
    · refine ⟨b, ⟨le_refl _, hbe⟩, hb, ?_⟩
      rcases h with ⟨h2, h3⟩ | ⟨⟨h2, h3⟩ | ⟨⟨h2, h3⟩ | ⟨h2, h3⟩⟩⟩
      · linarith
      · linarith
      · exact h3
      · linarith
  · rintro ⟨p, ⟨hbp, hpe⟩, hip, hpi⟩
    rcases le_total b iv.begin with hb | hb
    · exact Or.inl ⟨hb, by linarith⟩
    · exact Or.inr (Or.inr (Or.inl ⟨hb, by linarith⟩))

/-- C8 witness: the amended equivalence applied to `[0,10)` and the
query range `[5,6)`. -/
theorem c8_overlaps_range_iff_witness :
    ((0 : ℚ) < 10 ∧ (5 : ℚ) < 6) ∧
    (Interval.overlapsRange ⟨0, 10, none⟩ 5 6 = true ↔
      overlapsSem ⟨0, 10, none⟩ 5 6) :=
  ⟨⟨by norm_num, by norm_num⟩,
    c8_overlaps_range_iff ⟨0, 10, none⟩ 5 6 (by norm_num) (by norm_num)⟩

/-- C9 (chop modelled from the spec, the method being absent from this
snapshot's `intervaltree.py`): from `{[0,10)}`, `chop(3,7)` leaves
exactly `{[0,3), [7,10)}`, while `chop(0,10)` and `chop(-5,15)` leave
the tree empty. -/
theorem c9_chop_scenarios :
    (((do
        let t ← IntervalTree.empty.addi 60 0 10
        t.chop 60 3 7 : Except String IntervalTree)).toOption.map
      (fun t => t.all_intervals ==
        [⟨0, 3, none⟩, ⟨7, 10, none⟩]) = some true) ∧
    (((do
        let t ← IntervalTree.empty.addi 60 0 10
        t.chop 60 0 10 : Except String IntervalTree)).toOption.map
      (fun t => (t.all_intervals == []) && (t.top_node == NTree.nil))
      = some true) ∧
    (((do
        let t ← IntervalTree.empty.addi 60 0 10
        t.chop 60 (-5) 15 : Except String IntervalTree)).toOption.map
      (fun t => (t.all_intervals == []) && (t.top_node == NTree.nil))
      = some true) := by
  refine ⟨?_, ?_, ?_⟩
  · with_unfolding_all decide
  · with_unfolding_all decide
  · with_unfolding_all decide

/-! ### Search correctness (C2) -/

theorem contains_point_iff (iv : Interval) (p : ℚ) :
    iv.contains_point p = true ↔ iv.begin ≤ p ∧ p < iv.end_ := by
  simp [Interval.contains_point]

theorem allIvs_node (x : ℚ) (s : List Interval) (l r : NTree) (bb : Int)
    (a : Interval) :
    a ∈ (NTree.node x s l r bb).allIvs ↔
      a ∈ s ∨ a ∈ l.allIvs ∨ a ∈ r.allIvs := by
  simp [NTree.allIvs, List.mem_append]

theorem wfb_node_iff (x : ℚ) (s : List Interval) (l r : NTree) (bb : Int) :
    (NTree.node x s l r bb).wfb = true ↔
      s ≠ [] ∧ (∀ iv ∈ s, iv.contains_point x = true) ∧
      (∀ iv ∈ l.allIvs, ¬ iv.contains_point x = true) ∧
      (∀ iv ∈ r.allIvs, ¬ iv.contains_point x = true) ∧
      (∀ c ∈ l.centers, c < x) ∧ (∀ c ∈ r.centers, x < c) ∧
      l.wfb = true ∧ r.wfb = true := by
  simp only [NTree.wfb, Bool.and_eq_true, List.all_eq_true,
    decide_eq_true_eq, and_assoc]

/-- Every interval stored in a well-formed subtree contains some center
of that subtree. -/
theorem wfb_seated : ∀ (t : NTree), t.wfb = true →
    ∀ a ∈ t.allIvs, ∃ c ∈ t.centers, a.contains_point c = true := by
  intro t
  induction t with
  | nil => intro _ a ha; simp [NTree.allIvs] at ha
  | node x s l r bb ihl ihr =>
    intro hw a ha
    rw [wfb_node_iff] at hw
    obtain ⟨-, hseat, -, -, -, -, hwl, hwr⟩ := hw
    rw [allIvs_node] at ha
    rcases ha with ha | ha | ha
    · exact ⟨x, by simp [NTree.centers], hseat a ha⟩
    · obtain ⟨c, hc, hac⟩ := ihl hwl a ha
      exact ⟨c, by simp [NTree.centers, hc], hac⟩
    · obtain ⟨c, hc, hac⟩ := ihr hwr a ha
      exact ⟨c, by simp [NTree.centers, hc], hac⟩

/-- In a well-formed node, every interval of the left subtree ends at
or before the center. -/
theorem wfb_left_bound (x : ℚ) (s : List Interval) (l r : NTree)
    (bb : Int) (hw : (NTree.node x s l r bb).wfb = true) :
    ∀ a ∈ l.allIvs, a.end_ ≤ x := by
  rw [wfb_node_iff] at hw
  obtain ⟨-, -, hln, -, hlc, -, hwl, -⟩ := hw
  intro a ha
  obtain ⟨c, hc, hac⟩ := wfb_seated l hwl a ha
  rw [contains_point_iff] at hac
  have hcx : c < x := hlc c hc
  have hnx := hln a ha
  rw [contains_point_iff] at hnx
  by_contra hgt
  push_neg at hgt
  exact hnx ⟨le_of_lt (lt_of_le_of_lt hac.1 hcx), hgt⟩

/-- In a well-formed node, every interval of the right subtree begins
strictly after the center. -/
theorem wfb_right_bound (x : ℚ) (s : List Interval) (l r : NTree)
    (bb : Int) (hw : (NTree.node x s l r bb).wfb = true) :
    ∀ a ∈ r.allIvs, x < a.begin := by
  rw [wfb_node_iff] at hw
  obtain ⟨-, -, -, hrn, -, hrc, -, hwr⟩ := hw
  intro a ha
  obtain ⟨c, hc, hac⟩ := wfb_seated r hwr a ha
  rw [contains_point_iff] at hac
  have hcx : x < c := hrc c hc
  have hnx := hrn a ha
  rw [contains_point_iff] at hnx
  by_contra hle
  push_neg at hle
  exact hnx ⟨hle, lt_trans hcx hac.2⟩

/-- Membership in the accumulator fold of `search_point` over one
`s_center`. -/
theorem mem_foldl_collect (p : ℚ) :
    ∀ (s acc : List Interval) (a : Interval),
    (a ∈ s.foldl
        (fun acc k =>
          if k.begin ≤ p ∧ p < k.end_ then sinsert k acc else acc)
        acc) ↔
      a ∈ acc ∨ (a ∈ s ∧ (a.begin ≤ p ∧ p < a.end_)) := by
  intro s
  induction s with
  | nil => intro acc a; simp
  | cons k ks ih =>
    intro acc a
    simp only [List.foldl_cons]
    by_cases hk : k.begin ≤ p ∧ p < k.end_
    · rw [if_pos hk, ih]
      simp only [mem_sinsert, List.mem_cons]
      constructor
      · rintro (⟨h | h⟩ | h)
        · subst h; exact Or.inr ⟨Or.inl rfl, hk⟩
        · exact Or.inl h
        · exact Or.inr ⟨Or.inr h.1, h.2⟩
      · rintro (h | ⟨h | h, h2⟩)
        · exact Or.inl (Or.inr h)
        · subst h; exact Or.inl (Or.inl rfl)
        · exact Or.inr ⟨h, h2⟩
    · rw [if_neg hk, ih]
      simp only [List.mem_cons]
      constructor
      · rintro (h | h)
        · exact Or.inl h
        · exact Or.inr ⟨Or.inr h.1, h.2⟩
      · rintro (h | ⟨h | h, h2⟩)
        · exact Or.inl h
        · subst h; exact absurd h2 hk
        · exact Or.inr ⟨h, h2⟩

/-- Frame: `search_point` does not modify the node structure. -/
theorem search_point_frame (p : ℚ) :
    ∀ (t : NTree) (acc : List Interval), (t.search_point p acc).2 = t := by
  intro t
  induction t with
  | nil => intro acc; rfl
  | node x s l r bb ihl ihr =>
    intro acc
    simp only [NTree.search_point]
    by_cases h1 : p < x ∧ l.isNode = true
    · rw [if_pos h1]
      have := ihl (s.foldl
        (fun acc k =>
          if k.begin ≤ p ∧ p < k.end_ then sinsert k acc else acc) acc)
      cases hsp : l.search_point p _ with
      | mk res l2 =>
        rw [hsp] at this
        simp only at this ⊢
        rw [this]
    · rw [if_neg h1]
      by_cases h2 : p > x ∧ r.isNode = true
      · rw [if_pos h2]
        have := ihr (s.foldl
          (fun acc k =>
            if k.begin ≤ p ∧ p < k.end_ then sinsert k acc else acc) acc)
        cases hsp : r.search_point p _ with
        | mk res r2 =>
          rw [hsp] at this
          simp only at this ⊢
          rw [this]
      · rw [if_neg h2]

/-- Exact characterization of `search_point` on a well-formed subtree:
it accumulates precisely the stored intervals containing the point. -/
theorem search_point_mem (p : ℚ) :
    ∀ (t : NTree), t.wfb = true →
    ∀ (acc : List Interval) (a : Interval),
      (a ∈ (t.search_point p acc).1 ↔
        a ∈ acc ∨ (a ∈ t.allIvs ∧ a.contains_point p = true)) := by
  intro t
  induction t with
  | nil => intro _ acc a; simp [NTree.search_point, NTree.allIvs]
  | node x s l r bb ihl ihr =>
    intro hw acc a
    have hwn := hw
    rw [wfb_node_iff] at hwn
    obtain ⟨-, -, -, -, -, -, hwl, hwr⟩ := hwn
    have hlb := wfb_left_bound x s l r bb hw
    have hrb := wfb_right_bound x s l r bb hw
    simp only [NTree.search_point]
    by_cases h1 : p < x ∧ l.isNode = true
    · rw [if_pos h1]
      cases hsp : l.search_point p (s.foldl
        (fun acc k =>
          if k.begin ≤ p ∧ p < k.end_ then sinsert k acc else acc) acc) with
      | mk res l2 =>
        have hm := ihl hwl (s.foldl
          (fun acc k =>
            if k.begin ≤ p ∧ p < k.end_ then sinsert k acc else acc) acc) a
        rw [hsp] at hm
        simp only at hm ⊢
        rw [hm, mem_foldl_collect, allIvs_node]
        constructor
        · rintro ((h | ⟨hs, hpair⟩) | ⟨hl, hc⟩)
          · exact Or.inl h
          · exact Or.inr ⟨Or.inl hs, (contains_point_iff a p).mpr hpair⟩
          · exact Or.inr ⟨Or.inr (Or.inl hl), hc⟩
        · rintro (h | ⟨hs | hl | hr, hc⟩)
          · exact Or.inl (Or.inl h)
          · exact Or.inl (Or.inr ⟨hs, (contains_point_iff a p).mp hc⟩)
          · exact Or.inr ⟨hl, hc⟩
          · -- impossible: intervals right of the center begin after x > p
            have hxa := hrb a hr
            have hap := ((contains_point_iff a p).mp hc).1
            exact absurd (lt_of_le_of_lt hap h1.1)
              (not_lt_of_gt hxa)
    · rw [if_neg h1]
      by_cases h2 : p > x ∧ r.isNode = true
      · rw [if_pos h2]
        cases hsp : r.search_point p (s.foldl
          (fun acc k =>
            if k.begin ≤ p ∧ p < k.end_ then sinsert k acc else acc) acc) with
        | mk res r2 =>
          have hm := ihr hwr (s.foldl
            (fun acc k =>
              if k.begin ≤ p ∧ p < k.end_ then sinsert k acc else acc) acc) a
          rw [hsp] at hm
          simp only at hm ⊢
          rw [hm, mem_foldl_collect, allIvs_node]
          constructor
          · rintro ((h | ⟨hs, hpair⟩) | ⟨hr, hc⟩)
            · exact Or.inl h
            · exact Or.inr ⟨Or.inl hs, (contains_point_iff a p).mpr hpair⟩
            · exact Or.inr ⟨Or.inr (Or.inr hr), hc⟩
          · rintro (h | ⟨hs | hl | hr, hc⟩)
            · exact Or.inl (Or.inl h)
            · exact Or.inl (Or.inr ⟨hs, (contains_point_iff a p).mp hc⟩)
            · -- impossible: intervals left of the center end at or before x < p
              have hax := wfb_left_bound x s l r bb hw a hl
              have hpa := ((contains_point_iff a p).mp hc).2
              exact absurd (lt_of_lt_of_le hpa hax)
                (not_lt_of_gt h2.1)
            · exact Or.inr ⟨hr, hc⟩
      · rw [if_neg h2]
        rw [mem_foldl_collect, allIvs_node]
        constructor
        · rintro (h | ⟨hs, hpair⟩)
          · exact Or.inl h
          · exact Or.inr ⟨Or.inl hs, (contains_point_iff a p).mpr hpair⟩
        · rintro (h | ⟨hs | hl | hr, hc⟩)
          · exact Or.inl h
          · exact Or.inr ⟨hs, (contains_point_iff a p).mp hc⟩
          · -- a sits in the left subtree: a.end_ ≤ x, so p < x, but then
            -- the left branch would have been taken
            have hax := hlb a hl
            have hpa := ((contains_point_iff a p).mp hc).2
            have hpx : p < x := lt_of_lt_of_le hpa hax
            have hlnode : l.isNode = true := by
              cases l with
              | nil => simp [NTree.allIvs] at hl
              | node _ _ _ _ _ => rfl
            exact absurd ⟨hpx, hlnode⟩ h1
          · have hxa := hrb a hr
            have hap := ((contains_point_iff a p).mp hc).1
            have hpx : x < p := lt_of_lt_of_le hxa hap
            have hrnode : r.isNode = true := by
              cases r with
              | nil => simp [NTree.allIvs] at hr
              | node _ _ _ _ _ => rfl
            exact absurd ⟨hpx, hrnode⟩ h2

/-- Membership in a set union. -/
theorem mem_sunion (a : Interval) :
    ∀ (ys xs : List Interval), a ∈ sunion xs ys ↔ a ∈ xs ∨ a ∈ ys := by
  intro ys
  induction ys with
  | nil => intro xs; simp [sunion]
  | cons y ys ih =>
    intro xs
    simp only [sunion, List.foldl_cons] at ih ⊢
    rw [ih (sinsert y xs)]
    simp only [mem_sinsert, List.mem_cons]
    tauto

/-- Specification of `search_overlap`: it leaves the tree unchanged and
collects exactly the stored intervals containing one of the probe
points. -/
theorem search_overlap_spec (n : NTree) (hwf : n.wfb = true) :
    ∀ (ps : List ℚ) (acc : List Interval),
      (ps.foldl (fun ac j => ac.2.search_point j ac.1) (acc, n)).2 = n ∧
      ∀ a, (a ∈ (ps.foldl (fun ac j => ac.2.search_point j ac.1)
                  (acc, n)).1 ↔
        a ∈ acc ∨ ∃ p, p ∈ ps ∧ a ∈ n.allIvs ∧
          a.contains_point p = true) := by
  intro ps
  induction ps with
  | nil => intro acc; exact ⟨rfl, fun a => by simp⟩
  | cons p ps ih =>
    intro acc
    have hstep : n.search_point p acc = ((n.search_point p acc).1, n) := by
      have hf := search_point_frame p n acc
      cases hsp : n.search_point p acc with
      | mk res n2 =>
        rw [hsp] at hf
        simp only at hf
        rw [hf]
    simp only [List.foldl_cons]
    rw [hstep]
    obtain ⟨hfr, hm⟩ := ih ((n.search_point p acc).1)
    refine ⟨hfr, fun a => ?_⟩
    rw [hm a, search_point_mem p n hwf acc a]
    constructor
    · rintro ((h | h) | ⟨q, hq, h2⟩)
      · exact Or.inl h
      · exact Or.inr ⟨p, List.mem_cons_self p ps, h⟩
      · exact Or.inr ⟨q, List.mem_cons_of_mem p hq, h2⟩
    · rintro (h | ⟨q, hq, h2⟩)
      · exact Or.inl (Or.inl h)
      · rcases List.mem_cons.mp hq with hq | hq
        · subst hq; exact Or.inl (Or.inr h2)
        · exact Or.inr ⟨q, hq, h2⟩

/-- C2: on a consistent tree (node invariants hold, the membership set
matches the node contents, every stored begin is a boundary key) that
contains at least one interval, `search(begin, end)` with
`begin < end` returns exactly the stored intervals overlapping the
half-open range `[begin, end)`: the probe at `begin` plus the probes at
the boundary keys strictly inside the range miss no overlapping
interval and admit no non-overlapping one. -/
theorem c2_search_returns_overlapping (t : IntervalTree) (b e : ℚ)
    (hwf : t.top_node.wfb = true)
    (hsync : ∀ iv : Interval,
      iv ∈ t.all_intervals ↔ iv ∈ t.top_node.allIvs)
    (hbt : ∀ iv ∈ t.all_intervals,
      iv.begin ∈ t.boundary_table.map Prod.fst)
    (hne : t.all_intervals ≠ [])
    (hbe : b < e) :
    ∃ res, (t.searchRange b e false).1 = Except.ok res ∧
      ∀ iv : Interval, iv ∈ res ↔
        iv ∈ t.all_intervals ∧ overlapsSem iv b e := by
  obtain ⟨iv0, hiv0⟩ : ∃ iv0, iv0 ∈ t.all_intervals := by
    cases h : t.all_intervals with
    | nil => exact absurd h hne
    | cons y ys => exact ⟨y, h ▸ List.mem_cons_self y ys⟩
  have htopn : t.top_node ≠ NTree.nil := by
    intro hcon
    have := (hsync iv0).mp hiv0
    rw [hcon] at this
    simp [NTree.allIvs] at this
  cases htop : t.top_node with
  | nil => exact absurd htop htopn
  | node x s l r bb =>
    rw [htop] at hwf hsync
    simp only [IntervalTree.searchRange, htop]
    have hstep : (NTree.node x s l r bb).search_point b [] =
        (((NTree.node x s l r bb).search_point b []).1,
          NTree.node x s l r bb) := by
      have hf := search_point_frame b (NTree.node x s l r bb) []
      cases hsp : (NTree.node x s l r bb).search_point b [] with
      | mk res n2 =>
        rw [hsp] at hf
        simp only at hf
        rw [hf]
    rw [hstep]
    obtain ⟨hfr, hm⟩ := search_overlap_spec (NTree.node x s l r bb) hwf
      ((t.boundary_table.map Prod.fst).filter (fun k => b < k ∧ k < e))
      []
    simp only [NTree.search_overlap]
    rw [if_neg (by simp : ¬ (false = true))]
    refine ⟨_, rfl, fun iv => ?_⟩
    rw [mem_sunion, hm iv,
      search_point_mem b (NTree.node x s l r bb) hwf [] iv]
    simp only [List.mem_nil_iff, false_or]
    constructor
    · rintro (h | ⟨p, hp, hiv, hc⟩)
      · refine ⟨(hsync iv).mpr h.1, b, ⟨le_refl b, hbe⟩, ?_⟩
        rw [contains_point_iff] at h
        exact h.2
      · have hpm := List.mem_filter.mp hp
        have hpr : b < p ∧ p < e := by
          have := hpm.2
          simpa using this
        rw [contains_point_iff] at hc
        exact ⟨(hsync iv).mpr hiv, p, ⟨le_of_lt hpr.1, hpr.2⟩,
          hc.1, hc.2⟩
    · rintro ⟨hmem, p, ⟨hbp, hpe⟩, hip, hpi⟩
      have hivt : iv ∈ (NTree.node x s l r bb).allIvs :=
        (hsync iv).mp hmem
      by_cases hcb : iv.begin ≤ b ∧ b < iv.end_
      · exact Or.inl ⟨hivt, (contains_point_iff iv b).mpr hcb⟩
      · -- iv does not contain `begin`, so iv.begin is a strictly interior
        -- boundary key and the probe there finds iv
        have hbend : b < iv.end_ := lt_of_le_of_lt hbp hpi
        have hbbeg : b < iv.begin := by
          by_contra hle
          push_neg at hle
          exact hcb ⟨hle, hbend⟩
        have hbeint : iv.begin < iv.end_ := by
          obtain ⟨c, -, hc⟩ := wfb_seated _ hwf iv hivt
          rw [contains_point_iff] at hc
          exact lt_of_le_of_lt hc.1 hc.2
        have hbege : iv.begin < e := lt_of_le_of_lt hip hpe
        refine Or.inr ⟨iv.begin, ?_, hivt,
          (contains_point_iff iv iv.begin).mpr ⟨le_refl _, hbeint⟩⟩
        rw [List.mem_filter]
        refine ⟨hbt iv hmem, ?_⟩
        simp only [decide_eq_true_eq]
        exact ⟨hbbeg, hbege⟩

/-- C2 witness: the search theorem applied to the one-interval tree
`c2WitnessTree` and the query range `[0, 1)`. -/
theorem c2_search_returns_overlapping_witness :
    (c2WitnessTree.top_node.wfb = true ∧ (0 : ℚ) < 1) ∧
    (∃ res, (c2WitnessTree.searchRange 0 1 false).1 = Except.ok res ∧
      ∀ iv : Interval, iv ∈ res ↔
        iv ∈ c2WitnessTree.all_intervals ∧ overlapsSem iv 0 1) :=
  ⟨⟨by decide, by norm_num⟩,
    c2_search_returns_overlapping c2WitnessTree 0 1 (by decide)
      (fun _ => Iff.rfl) (by decide) (by decide) (by norm_num)⟩

/-! ### Read-only queries (C10) -/

/-- Frame: `Node.contains_point` does not modify the node structure. -/
theorem containsPointQ_frame (p : ℚ) :
    ∀ (t : NTree), (t.containsPointQ p).2 = t := by
  intro t
  induction t with
  | nil => rfl
  | node x s l r bb ihl ihr =>
    simp only [NTree.containsPointQ]
    by_cases h1 : s.any (fun iv => iv.contains_point p) = true
    · rw [if_pos h1]
    · rw [if_neg h1]
      by_cases h2 : p > x
      · rw [if_pos h2]
        cases hq : r.containsPointQ p with
        | mk res r2 =>
          rw [hq] at ihr
          simp only at ihr ⊢
          rw [ihr]
      · rw [if_neg h2]
        cases hq : l.containsPointQ p with
        | mk res l2 =>
          rw [hq] at ihl
          simp only at ihl ⊢
          rw [ihl]

/-- Frame: `Node.search_overlap`'s fold does not modify the node
structure. -/
theorem search_overlap_frame (n : NTree) :
    ∀ (ps : List ℚ) (acc : List Interval),
      (ps.foldl (fun ac j => ac.2.search_point j ac.1) (acc, n)).2 = n := by
  intro ps
  induction ps with
  | nil => intro acc; rfl
  | cons p ps ih =>
    intro acc
    have hstep : n.search_point p acc = ((n.search_point p acc).1, n) := by
      have hf := search_point_frame p n acc
      cases hsp : n.search_point p acc with
      | mk res n2 =>
        rw [hsp] at hf
        simp only at hf
        rw [hf]
    simp only [List.foldl_cons]
    rw [hstep]
    exact ih ((n.search_point p acc).1)

/-- Frame: the facade's `overlaps_point` returns the tree unchanged. -/
theorem overlaps_point_frame (t : IntervalTree) (p : ℚ) :
    (t.overlaps_point p).2 = t := by
  simp only [IntervalTree.overlaps_point]
  by_cases h : t.all_intervals.length = 0
  · rw [if_pos h]
  · rw [if_neg h]
    simp only
    cases hq : t.top_node.containsPointQ p with
    | mk res n2 =>
      have := containsPointQ_frame p t.top_node
      rw [hq] at this
      simp only at this ⊢
      rw [this]

/-- C10: every query operation is read-only.  Each query, modelled as a
state transformer returning the post-call object graph, leaves the
facade state (membership set, boundary table and every node)
unchanged, whether it succeeds or raises. -/
theorem c10_queries_are_read_only (t : IntervalTree) (p b e : ℚ)
    (strict : Bool) (iv : Interval) :
    (t.searchPoint p).2 = t ∧
    (t.searchRange b e strict).2 = t ∧
    (t.getPoint p).2 = t ∧
    (t.getSlice b e).2 = t ∧
    (t.overlaps_point p).2 = t ∧
    (t.overlaps_range b e).2 = t ∧
    t.items.2 = t ∧
    (t.containsQ iv).2 = t := by
  have hsp : (t.searchPoint p).2 = t := by
    simp only [IntervalTree.searchPoint]
    cases htop : t.top_node with
    | nil => rfl
    | node x s l r bb =>
      simp only
      cases hq : (NTree.node x s l r bb).search_point p [] with
      | mk res n2 =>
        have := search_point_frame p (NTree.node x s l r bb) []
        rw [hq] at this
        simp only at this ⊢
        rw [this, ← htop]
  have hsr : ∀ b e strict, (t.searchRange b e strict).2 = t := by
    intro b e strict
    simp only [IntervalTree.searchRange]
    cases htop : t.top_node with
    | nil => rfl
    | node x s l r bb =>
      simp only
      cases hq : (NTree.node x s l r bb).search_point b [] with
      | mk res n1 =>
        have h1 := search_point_frame b (NTree.node x s l r bb) []
        rw [hq] at h1
        simp only at h1
        subst h1
        simp only [NTree.search_overlap]
        cases hq2 : (List.foldl (fun ac j => ac.2.search_point j ac.1)
            ([], NTree.node x s l r bb)
            ((t.boundary_table.map Prod.fst).filter
              (fun k => b < k ∧ k < e))) with
        | mk res2 n2 =>
          have h2 := search_overlap_frame (NTree.node x s l r bb)
            ((t.boundary_table.map Prod.fst).filter
              (fun k => b < k ∧ k < e)) []
          rw [hq2] at h2
          simp only at h2 ⊢
          rw [h2, ← htop]
  have hop : (t.overlaps_point p).2 = t := overlaps_point_frame t p
  refine ⟨hsp, hsr b e strict, hsp, hsr b e false, hop, ?_, rfl, rfl⟩
  simp only [IntervalTree.overlaps_range]
  by_cases h : t.all_intervals.length = 0
  · rw [if_pos h]
  · rw [if_neg h]
    cases hq : t.overlaps_point b with
    | mk hit t1 =>
      have h1 := overlaps_point_frame t b
      rw [hq] at h1
      simp only at h1
      rw [h1]
      by_cases hh : hit = true
      · rw [if_pos hh]
      · rw [if_neg hh]
        have hfold : ∀ (ks : List ℚ) (acc : Bool),
            (ks.foldl
              (fun (acc : Bool × IntervalTree) k =>
                if acc.1 then acc else acc.2.overlaps_point k)
              (acc, t)).2 = t := by
          intro ks
          induction ks with
          | nil => intro acc; rfl
          | cons k ks ih =>
            intro acc
            simp only [List.foldl_cons]
            by_cases ha : acc = true
            · rw [if_pos ha]
              exact ih acc
            · rw [if_neg ha]
              have hopk : t.overlaps_point k =
                  ((t.overlaps_point k).1, t) := by
                have hf := overlaps_point_frame t k
                cases hq2 : t.overlaps_point k with
                | mk res t2 =>
                  rw [hq2] at hf
                  simp only at hf
                  rw [hf]
              rw [hopk]
              exact ih ((t.overlaps_point k).1)
        exact hfold _ false

/-! ### Balance freshness (C4, amended) -/

theorem balFresh_node_iff (x : ℚ) (s : List Interval) (l r : NTree)
    (b : Int) :
    (NTree.node x s l r b).balFresh = true ↔
      b = crudeBalance l r ∧ l.balFresh = true ∧ r.balFresh = true := by
  simp [NTree.balFresh, and_assoc]

theorem balFresh_childFresh (t : NTree) (h : t.balFresh = true) :
    t.childFresh = true := by
  cases t with
  | nil => rfl
  | node x s l r b =>
    rw [balFresh_node_iff] at h
    simp [NTree.childFresh, h.2.1, h.2.2]

theorem childFresh_get (t : NTree) (d : Bool) (h : t.childFresh = true) :
    (t.get d).balFresh = true := by
  cases t with
  | nil => cases d <;> rfl
  | node x s l r b =>
    simp only [NTree.childFresh, Bool.and_eq_true] at h
    cases d
    · exact h.1
    · exact h.2

theorem balFresh_get (t : NTree) (d : Bool) (h : t.balFresh = true) :
    (t.get d).balFresh = true :=
  childFresh_get t d (balFresh_childFresh t h)

theorem refresh_balance_node (x : ℚ) (s : List Interval) (l r : NTree)
    (b : Int) :
    (NTree.node x s l r b).refresh_balance =
      NTree.node x s l r (crudeBalance l r) := rfl

theorem refresh_balance_fresh (t : NTree) (h : t.childFresh = true) :
    t.refresh_balance.balFresh = true := by
  cases t with
  | nil => rfl
  | node x s l r b =>
    rw [refresh_balance_node, balFresh_node_iff]
    simp only [NTree.childFresh, Bool.and_eq_true] at h
    exact ⟨rfl, h.1, h.2⟩

theorem set_childFresh (x : ℚ) (s : List Interval) (l r : NTree)
    (b : Int) (d : Bool) (c : NTree)
    (hc : c.balFresh = true)
    (h : (NTree.node x s l r b).childFresh = true) :
    ((NTree.node x s l r b).set d c).childFresh = true := by
  simp only [NTree.childFresh, Bool.and_eq_true] at h
  cases d
  · simp [NTree.set, NTree.childFresh, hc, h.2]
  · simp [NTree.set, NTree.childFresh, hc, h.1]

theorem withSCenter_balFresh (t : NTree) (s : List Interval) :
    (t.withSCenter s).balFresh = t.balFresh := by
  cases t <;> simp [NTree.withSCenter, NTree.balFresh]

theorem withXCenter_balFresh (t : NTree) (x : ℚ) :
    (t.withXCenter x).balFresh = t.balFresh := by
  cases t <;> simp [NTree.withXCenter, NTree.balFresh]

theorem from_interval_fresh (iv : Interval) :
    (NTree.from_interval iv).balFresh = true := rfl

theorem shape_isNode (t t' : NTree) (h : t.shape = t'.shape) :
    t.isNode = t'.isNode := by
  cases t <;> cases t' <;> simp_all [NTree.shape, NTree.isNode]

theorem shape_get (t t' : NTree) (d : Bool) (h : t.shape = t'.shape) :
    (t.get d).shape = (t'.get d).shape := by
  cases t with
  | nil => cases t' with
    | nil => rfl
    | node _ _ _ _ _ => exact absurd h (by simp [NTree.shape])
  | node x s l r b =>
    cases t' with
    | nil => exact absurd h (by simp [NTree.shape])
    | node x2 s2 l2 r2 b2 =>
      simp only [NTree.shape, NTree.node.injEq] at h
      cases d
      · simpa [NTree.get] using h.2.2.1
      · simpa [NTree.get] using h.2.2.2.1

theorem crudeBalance_congr (l r l2 r2 : NTree)
    (hl : l.shape = l2.shape) (hr : r.shape = r2.shape) :
    crudeBalance l r = crudeBalance l2 r2 := by
  unfold crudeBalance
  rw [shape_isNode l l2 hl, shape_isNode r r2 hr,
    shape_isNode (l.get false) (l2.get false) (shape_get l l2 false hl),
    shape_isNode (l.get true) (l2.get true) (shape_get l l2 true hl),
    shape_isNode (r.get false) (r2.get false) (shape_get r r2 false hr),
    shape_isNode (r.get true) (r2.get true) (shape_get r r2 true hr)]

theorem except_bind_ok {α β : Type} (e : Except String α)
    (f : α → Except String β) (r : β) :
    (e >>= f) = Except.ok r ↔ ∃ v, e = Except.ok v ∧ f v = Except.ok r := by
  cases e with
  | error msg => simp [Bind.bind, Except.bind]
  | ok v => simp [Bind.bind, Except.bind]

theorem foldlM_except_inv {α β : Type} (P : α → Prop)
    (f : α → β → Except String α) :
    ∀ (l : List β) (a res : α),
    (∀ x b r, P x → f x b = Except.ok r → P r) →
    P a → l.foldlM f a = Except.ok res → P res := by
  intro l
  induction l with
  | nil =>
    intro a res _ h0 hres
    simp only [List.foldlM_nil] at hres
    cases hres
    exact h0
  | cons b bs ih =>
    intro a res hstep h0 hres
    simp only [List.foldlM_cons] at hres
    rw [except_bind_ok] at hres
    obtain ⟨v, hv, hrest⟩ := hres
    exact ih v res hstep (hstep a b v h0 hv) hrest

theorem except_pure_ok {α : Type} (v r : α) :
    (pure v : Except String α) = Except.ok r ↔ v = r := by
  simp only [pure, Except.pure, Except.ok.injEq]

theorem except_throw_ok {α : Type} (m : String) (r : α) :
    (throw m : Except String α) = Except.ok r ↔ False := by
  simp [throw, throwThe, MonadExceptOf.throw]

theorem except_seq_throw_ok {α β : Type} (m : String)
    (f : α → Except String β) (r : β) :
    ((throw m : Except String α) >>= f) = Except.ok r ↔ False := by
  simp [throw, throwThe, MonadExceptOf.throw, Bind.bind, Except.bind]

theorem refresh_balance_childFresh (t : NTree) (h : t.childFresh = true) :
    t.refresh_balance.childFresh = true := by
  cases t with
  | nil => rfl
  | node x s l r b => exact h

/-- One fuel step of balance freshness for `rotate`. -/
theorem rotate_fresh_step (n : Nat)
    (ihsrot : ∀ t t', t.childFresh = true →
      NTree.srotate n t = Except.ok t' → t'.balFresh = true)
    (ihdrot : ∀ t t', t.childFresh = true →
      NTree.drotate n t = Except.ok t' → t'.balFresh = true) :
    ∀ t t', t.childFresh = true →
      NTree.rotate (n + 1) t = Except.ok t' → t'.balFresh = true := by
  intro t t' hcf h
  simp only [NTree.rotate] at h
  by_cases hb : |t.refresh_balance.balance| < 2
  · rw [if_pos hb, except_pure_ok] at h
    rw [← h]
    exact refresh_balance_fresh t hcf
  · rw [if_neg hb] at h
    have hcf2 : t.refresh_balance.childFresh = true :=
      refresh_balance_childFresh t hcf
    by_cases hh : (t.refresh_balance.balance > 0) =
        ((t.refresh_balance.get (t.refresh_balance.balance > 0)).balance > 0)
    · rw [if_pos hh] at h
      exact ihsrot _ _ hcf2 h
    · rw [if_neg hh] at h
      exact ihdrot _ _ hcf2 h

/-- One fuel step of balance freshness for `add`. -/
theorem add_fresh_step (n : Nat)
    (ihadd : ∀ t iv t', t.balFresh = true →
      NTree.add n t iv = Except.ok t' → t'.balFresh = true)
    (ihrot : ∀ t t', t.childFresh = true →
      NTree.rotate n t = Except.ok t' → t'.balFresh = true) :
    ∀ t iv t', t.balFresh = true →
      NTree.add (n + 1) t iv = Except.ok t' → t'.balFresh = true := by
  intro t iv t' hf h
  cases t with
  | nil => simp only [NTree.add, except_throw_ok] at h
  | node x s l r b =>
    rw [balFresh_node_iff] at hf
    simp only [NTree.add] at h
    by_cases hc : NTree.center_hit (NTree.node x s l r b) iv = true
    · rw [if_pos hc, except_pure_ok] at h
      rw [← h, balFresh_node_iff]
      exact hf
    · rw [if_neg hc] at h
      by_cases hd : (NTree.get (NTree.node x s l r b)
          (NTree.hit_branch (NTree.node x s l r b) iv)).isNode = true
      · rw [if_neg (by simpa using hd)] at h
        rw [except_bind_ok] at h
        obtain ⟨c, hcok, hrok⟩ := h
        have hcfr : c.balFresh = true :=
          ihadd _ _ _ (childFresh_get _ _ (by
            simp [NTree.childFresh, hf.2.1, hf.2.2])) hcok
        refine ihrot _ _ ?_ hrok
        exact set_childFresh x s l r b _ c hcfr
          (by simp [NTree.childFresh, hf.2.1, hf.2.2])
      · rw [if_pos (by simpa using hd), except_pure_ok] at h
        rw [← h]
        refine refresh_balance_fresh _ ?_
        exact set_childFresh x s l r b _ _ (from_interval_fresh iv)
          (by simp [NTree.childFresh, hf.2.1, hf.2.2])

/-- One fuel step of balance freshness for `from_intervals`. -/
theorem from_intervals_fresh_step (n : Nat)
    (ihinit : ∀ l t', NTree.init_from_sorted n l = Except.ok t' →
      t'.balFresh = true) :
    ∀ l t', NTree.from_intervals (n + 1) l = Except.ok t' →
      t'.balFresh = true := by
  intro l t' h
  simp only [NTree.from_intervals] at h
  by_cases he : l = []
  · rw [if_pos he, except_pure_ok] at h
    rw [← h]
    rfl
  · rw [if_neg he] at h
    exact ihinit _ _ h

/-- One fuel step of balance freshness for `init_from_sorted`. -/
theorem init_from_sorted_fresh_step (n : Nat)
    (ihfrom : ∀ l t', NTree.from_intervals n l = Except.ok t' →
      t'.balFresh = true)
    (ihrot : ∀ t t', t.childFresh = true →
      NTree.rotate n t = Except.ok t' → t'.balFresh = true) :
    ∀ l t', NTree.init_from_sorted (n + 1) l = Except.ok t' →
      t'.balFresh = true := by
  intro l t' h
  cases l with
  | nil =>
    simp only [NTree.init_from_sorted, except_pure_ok] at h
    rw [← h]
    rfl
  | cons v0 vrest =>
    simp only [NTree.init_from_sorted] at h
    rw [except_bind_ok] at h
    obtain ⟨ln, hln, h⟩ := h
    rw [except_bind_ok] at h
    obtain ⟨rn, hrn, h⟩ := h
    refine ihrot _ _ ?_ h
    simp [NTree.childFresh, ihfrom _ _ hln, ihfrom _ _ hrn]

/-- One fuel step of balance freshness for `remove` and `discard`. -/
theorem remove_fresh_step (n : Nat)
    (ihhel : ∀ t iv sr out, t.balFresh = true →
      NTree.remove_interval_helper n t iv sr = Except.ok out →
      out.1.balFresh = true ∧ (out.2 = true → out.1.shape = t.shape)) :
    (∀ t iv t', t.balFresh = true →
      NTree.remove (n + 1) t iv = Except.ok t' → t'.balFresh = true) ∧
    (∀ t iv t', t.balFresh = true →
      NTree.discardNode (n + 1) t iv = Except.ok t' →
        t'.balFresh = true) := by
  constructor
  · intro t iv t' hf h
    simp only [NTree.remove] at h
    rw [except_bind_ok] at h
    obtain ⟨⟨t2, d⟩, hok, hp⟩ := h
    rw [except_pure_ok] at hp
    rw [← hp]
    exact (ihhel t iv true (t2, d) hf hok).1
  · intro t iv t' hf h
    simp only [NTree.discardNode] at h
    rw [except_bind_ok] at h
    obtain ⟨⟨t2, d⟩, hok, hp⟩ := h
    rw [except_pure_ok] at hp
    rw [← hp]
    exact (ihhel t iv false (t2, d) hf hok).1

/-- One fuel step of balance freshness for `remove_interval_helper`:
the result is fresh, and a `done` result has the same skeleton as the
input. -/
theorem helper_fresh_step (n : Nat)
    (ihhel : ∀ t iv sr out, t.balFresh = true →
      NTree.remove_interval_helper n t iv sr = Except.ok out →
      out.1.balFresh = true ∧ (out.2 = true → out.1.shape = t.shape))
    (ihprune : ∀ t t', t.balFresh = true →
      NTree.prune n t = Except.ok t' → t'.balFresh = true)
    (ihrot : ∀ t t', t.childFresh = true →
      NTree.rotate n t = Except.ok t' → t'.balFresh = true) :
    ∀ t iv sr out, t.balFresh = true →
      NTree.remove_interval_helper (n + 1) t iv sr = Except.ok out →
      out.1.balFresh = true ∧ (out.2 = true → out.1.shape = t.shape) := by
  intro t iv sr out hf h
  cases t with
  | nil => simp only [NTree.remove_interval_helper, except_throw_ok] at h
  | node x s l r b =>
    have hfn := hf
    rw [balFresh_node_iff] at hfn
    simp only [NTree.remove_interval_helper] at h
    by_cases hc : NTree.center_hit (NTree.node x s l r b) iv = true
    · rw [if_pos hc] at h
      by_cases hnr : ¬ sr = true ∧ iv ∉ s
      · rw [if_pos hnr, except_pure_ok] at h
        rw [← h]
        exact ⟨hf, fun _ => rfl⟩
      · rw [if_neg hnr] at h
        by_cases hmem : iv ∉ s
        · rw [if_pos hmem, except_throw_ok] at h
          exact absurd h (by simp)
        · rw [if_neg hmem] at h
          by_cases hne : s.erase iv ≠ []
          · rw [if_pos hne, except_pure_ok] at h
            rw [← h]
            refine ⟨?_, fun _ => rfl⟩
            rw [balFresh_node_iff]
            exact hfn
          · rw [if_neg hne] at h
            rw [except_bind_ok] at h
            obtain ⟨p, hpok, hpo⟩ := h
            rw [except_pure_ok] at hpo
            rw [← hpo]
            refine ⟨?_, fun hfalse => by simp at hfalse⟩
            refine ihprune _ _ ?_ hpok
            rw [balFresh_node_iff]
            exact ⟨hfn.1, hfn.2.1, hfn.2.2⟩
    · rw [if_neg hc] at h
      by_cases hd : (NTree.get (NTree.node x s l r b)
          (NTree.hit_branch (NTree.node x s l r b) iv)).isNode = true
      · rw [if_neg (by simpa using hd)] at h
        rw [except_bind_ok] at h
        obtain ⟨⟨c, d⟩, hcok, h⟩ := h
        obtain ⟨hcfr, hcs⟩ := ihhel _ iv sr (c, d)
          (childFresh_get _ _ (balFresh_childFresh _ hf)) hcok
        by_cases hdone : ¬ d = true
        · rw [if_pos hdone] at h
          rw [except_bind_ok] at h
          obtain ⟨t3, ht3, hout⟩ := h
          rw [except_pure_ok] at hout
          rw [← hout]
          refine ⟨?_, fun hfalse => by simp at hfalse⟩
          refine ihrot _ _ ?_ ht3
          exact set_childFresh x s l r b _ c hcfr
            (balFresh_childFresh _ hf)
        · rw [if_neg hdone, except_pure_ok] at h
          rw [← h]
          push_neg at hdone
          have hshape := hcs hdone
          cases hbr : NTree.hit_branch (NTree.node x s l r b) iv with
          | false =>
            rw [hbr] at hshape
            simp only [NTree.get] at hshape
            refine ⟨?_, fun _ => ?_⟩
            · simp only [NTree.set]
              rw [balFresh_node_iff]
              exact ⟨hfn.1.trans
                (crudeBalance_congr l r c r hshape.symm rfl), hcfr,
                hfn.2.2⟩
            · simp only [NTree.set, NTree.shape, hshape]
          | true =>
            rw [hbr] at hshape
            simp only [NTree.get] at hshape
            refine ⟨?_, fun _ => ?_⟩
            · simp only [NTree.set]
              rw [balFresh_node_iff]
              exact ⟨hfn.1.trans
                (crudeBalance_congr l r l c rfl hshape.symm), hfn.2.1,
                hcfr⟩
            · simp only [NTree.set, NTree.shape, hshape]
      · rw [if_pos (by simpa using hd)] at h
        by_cases hsr : sr = true
        · rw [if_pos hsr, except_throw_ok] at h
          exact absurd h (by simp)
        · rw [if_neg hsr, except_pure_ok] at h
          rw [← h]
          exact ⟨hf, fun _ => rfl⟩

/-- One fuel step of balance freshness for `prune`. -/
theorem prune_fresh_step (n : Nat)
    (ihpop : ∀ t out, t.balFresh = true →
      NTree.pop_greatest_child n t = Except.ok out →
      out.1.balFresh = true ∧ out.2.balFresh = true)
    (ihrot : ∀ t t', t.childFresh = true →
      NTree.rotate n t = Except.ok t' → t'.balFresh = true) :
    ∀ t t', t.balFresh = true →
      NTree.prune (n + 1) t = Except.ok t' → t'.balFresh = true := by
  intro t t' hf h
  cases t with
  | nil => simp only [NTree.prune, except_throw_ok] at h
  | node x s l r b =>
    have hfn := hf
    rw [balFresh_node_iff] at hfn
    simp only [NTree.prune] at h
    by_cases hg : ¬ l.isNode = true ∨ ¬ r.isNode = true
    · rw [if_pos hg, except_pure_ok] at h
      rw [← h]
      exact balFresh_get _ _ hf
    · rw [if_neg hg] at h
      rw [except_bind_ok] at h
      obtain ⟨⟨heir, l2⟩, hpok, h⟩ := h
      obtain ⟨hheir, hl2⟩ := ihpop l (heir, l2) hfn.2.1 hpok
      cases heir with
      | nil => simp only [except_throw_ok] at h
      | node hx hs hl hr hb =>
        refine ihrot _ _ ?_ h
        refine balFresh_childFresh _ (refresh_balance_fresh _ ?_)
        simp [NTree.childFresh, hl2, hfn.2.2]

/-- One fuel step of balance freshness for `pop_greatest_child`. -/
theorem pop_fresh_step (n : Nat)
    (ihpop : ∀ t out, t.balFresh = true →
      NTree.pop_greatest_child n t = Except.ok out →
      out.1.balFresh = true ∧ out.2.balFresh = true)
    (ihrot : ∀ t t', t.childFresh = true →
      NTree.rotate n t = Except.ok t' → t'.balFresh = true)
    (ihadd : ∀ t iv t', t.balFresh = true →
      NTree.add n t iv = Except.ok t' → t'.balFresh = true)
    (ihprune : ∀ t t', t.balFresh = true →
      NTree.prune n t = Except.ok t' → t'.balFresh = true)
    (ihfrom : ∀ l t', NTree.from_intervals n l = Except.ok t' →
      t'.balFresh = true) :
    ∀ t out, t.balFresh = true →
      NTree.pop_greatest_child (n + 1) t = Except.ok out →
      out.1.balFresh = true ∧ out.2.balFresh = true := by
  intro t out hf h
  cases t with
  | nil => simp only [NTree.pop_greatest_child, except_throw_ok] at h
  | node x s l r b =>
    have hfn := hf
    rw [balFresh_node_iff] at hfn
    simp only [NTree.pop_greatest_child] at h
    by_cases hr : ¬ r.isNode = true
    · rw [if_pos hr] at h
      cases s with
      | nil => simp only [except_throw_ok] at h
      | cons s0 srest =>
        rw [except_bind_ok] at h
        obtain ⟨child0, hc0, h⟩ := h
        have hc0f : child0.balFresh = true := ihfrom _ _ hc0
        by_cases hn0 : ¬ child0.isNode = true
        · rw [if_pos hn0, except_seq_throw_ok] at h
          exact h.elim
        · rw [if_neg hn0] at h
          simp only [pure_bind] at h
          by_cases hg0 : ((child0.withXCenter
              (if (maxByEnd s0 srest).end_ - (maxByEnd s0 srest).begin ≤ 1
               then (maxByEnd s0 srest).begin
               else (maxByEnd s0 srest).end_ - 1)).get false).isNode = true
          · rw [if_pos hg0, except_seq_throw_ok] at h
            exact h.elim
          · rw [if_neg hg0] at h
            by_cases hg1 : ((child0.withXCenter
                (if (maxByEnd s0 srest).end_ - (maxByEnd s0 srest).begin ≤ 1
                 then (maxByEnd s0 srest).begin
                 else (maxByEnd s0 srest).end_ - 1)).get true).isNode = true
            · rw [if_pos hg1, except_seq_throw_ok] at h
              exact h.elim
            · rw [if_neg hg1] at h
              have hcf : (child0.withXCenter
                  (if (maxByEnd s0 srest).end_ - (maxByEnd s0 srest).begin ≤ 1
                   then (maxByEnd s0 srest).begin
                   else (maxByEnd s0 srest).end_ - 1)).balFresh = true := by
                rw [withXCenter_balFresh]
                exact hc0f
              by_cases hs2 : sdiff (s0 :: srest)
                  (child0.withXCenter
                    (if (maxByEnd s0 srest).end_ - (maxByEnd s0 srest).begin ≤ 1
                     then (maxByEnd s0 srest).begin
                     else (maxByEnd s0 srest).end_ - 1)).s_center ≠ []
              · rw [if_pos hs2, except_pure_ok] at h
                rw [← h]
                refine ⟨hcf, ?_⟩
                rw [balFresh_node_iff]
                exact hfn
              · rw [if_neg hs2, except_pure_ok] at h
                rw [← h]
                exact ⟨hcf, hfn.2.1⟩
    · rw [if_neg hr] at h
      rw [except_bind_ok] at h
      obtain ⟨⟨gc, r2⟩, hpok, h⟩ := h
      obtain ⟨hgc, hr2⟩ := ihpop r (gc, r2) hfn.2.2 hpok
      rw [except_bind_ok] at h
      obtain ⟨new_self, hns, h⟩ := h
      have hnsf : new_self.balFresh = true := by
        refine ihrot _ _ ?_ hns
        refine refresh_balance_childFresh _ ?_
        exact set_childFresh x s l r b true r2 hr2
          (balFresh_childFresh _ hf)
      rw [except_bind_ok] at h
      obtain ⟨⟨ns, gc2⟩, hfold, h⟩ := h
      have hnsgc : ns.balFresh = true ∧ gc2.balFresh = true := by
        have := foldlM_except_inv
          (fun acc : NTree × NTree =>
            acc.1.balFresh = true ∧ acc.2.balFresh = true)
          _ new_self.s_center (new_self, gc) (ns, gc2) ?_ ⟨hnsf, hgc⟩ hfold
        · exact this
        · intro acc iv rr hP hok
          by_cases hcp : iv.contains_point acc.2.x_center = true
          · rw [if_pos hcp] at hok
            rw [except_bind_ok] at hok
            obtain ⟨gc3, hgc3, hok⟩ := hok
            rw [except_pure_ok] at hok
            rw [← hok]
            exact ⟨by rw [withSCenter_balFresh]; exact hP.1,
              ihadd _ _ _ hP.2 hgc3⟩
          · rw [if_neg hcp, except_pure_ok] at hok
            rw [← hok]
            exact hP
      by_cases hne : ns.s_center ≠ []
      · rw [if_pos hne, except_pure_ok] at h
        rw [← h]
        exact ⟨hnsgc.2, hnsgc.1⟩
      · rw [if_neg hne] at h
        rw [except_bind_ok] at h
        obtain ⟨p, hpk, h⟩ := h
        rw [except_pure_ok] at h
        rw [← h]
        exact ⟨hnsgc.2, ihprune _ _ hnsgc.1 hpk⟩

theorem set_x_center (x : ℚ) (s : List Interval) (l r : NTree) (b : Int)
    (d : Bool) (c : NTree) :
    ((NTree.node x s l r b).set d c).x_center = x := by
  cases d <;> rfl

theorem set_center_hit (x : ℚ) (s : List Interval) (l r : NTree)
    (b : Int) (d : Bool) (c : NTree) (iv : Interval) :
    ((NTree.node x s l r b).set d c).center_hit iv =
      (NTree.node x s l r b).center_hit iv := by
  cases d <;> rfl

theorem set_isNode (x : ℚ) (s : List Interval) (l r : NTree) (b : Int)
    (d : Bool) (c : NTree) :
    ((NTree.node x s l r b).set d c).isNode = true := by
  cases d <;> rfl

/-- On a center hit, `add` only inserts into `s_center`. -/
theorem add_center_hit_result (m : Nat) (x : ℚ) (s : List Interval)
    (l r : NTree) (b : Int) (iv : Interval) (out : NTree)
    (hc : (NTree.node x s l r b).center_hit iv = true)
    (h : NTree.add m (NTree.node x s l r b) iv = Except.ok out) :
    out = NTree.node x (sinsert iv s) l r b := by
  cases m with
  | zero => simp only [NTree.add, except_throw_ok] at h
  | succ m =>
    simp only [NTree.add] at h
    rw [if_pos hc, except_pure_ok] at h
    exact h.symm

/-- On a node hit at its center, `add` preserves child freshness. -/
theorem add_center_hit_childFresh (m : Nat) (t : NTree) (iv : Interval)
    (out : NTree) (hc : t.center_hit iv = true)
    (hcf : t.childFresh = true)
    (h : NTree.add m t iv = Except.ok out) : out.childFresh = true := by
  cases t with
  | nil =>
    cases m with
    | zero => simp only [NTree.add, except_throw_ok] at h
    | succ m => simp only [NTree.add, except_throw_ok] at h
  | node x s l r b =>
    rw [add_center_hit_result m x s l r b iv out hc h]
    exact hcf

theorem srotate_nil (m : Nat) (out : NTree)
    (h : NTree.srotate m NTree.nil = Except.ok out) : False := by
  cases m with
  | zero => simp only [NTree.srotate, except_throw_ok] at h
  | succ m =>
    simp only [NTree.srotate, NTree.get, NTree.isNode] at h
    rw [if_pos (by simp), except_seq_throw_ok] at h
    exact h

/-- One fuel step of balance freshness for `srotate`. -/
theorem srotate_fresh_step (n : Nat)
    (ihrot : ∀ t t', t.childFresh = true →
      NTree.rotate n t = Except.ok t' → t'.balFresh = true)
    (ihrem : ∀ t iv t', t.balFresh = true →
      NTree.remove n t iv = Except.ok t' → t'.balFresh = true) :
    ∀ t t', t.childFresh = true →
      NTree.srotate (n + 1) t = Except.ok t' → t'.balFresh = true := by
  intro t t' hcf h
  simp only [NTree.srotate] at h
  by_cases hs : ¬ (t.get (decide (t.balance > 0))).isNode = true
  · rw [if_pos hs, except_seq_throw_ok] at h
    exact h.elim
  · rw [if_neg hs] at h
    simp only [pure_bind] at h
    rw [except_bind_ok] at h
    obtain ⟨sl, hsl, h⟩ := h
    have hsavef : (t.get (decide (t.balance > 0))).balFresh = true :=
      childFresh_get _ _ hcf
    cases t with
    | nil =>
      exact absurd (by simp [NTree.get, NTree.isNode]) hs
    | node x s l r b =>
      have hslf : sl.balFresh = true := by
        refine ihrot _ _ ?_ hsl
        refine refresh_balance_childFresh _ ?_
        exact set_childFresh x s l r b _ _
          (balFresh_get _ _ hsavef) hcf
      have hstart : (((NTree.node x s l r b).get
          (decide ((NTree.node x s l r b).balance > 0))).set
            (!decide ((NTree.node x s l r b).balance > 0))
            sl).refresh_balance.balFresh = true := by
        cases hsave : (NTree.node x s l r b).get
            (decide ((NTree.node x s l r b).balance > 0)) with
        | nil =>
          rw [hsave] at hs
          exact absurd (by simp [NTree.isNode]) hs
        | node sx ss sl2 sr2 sb =>
          refine refresh_balance_fresh _ ?_
          refine set_childFresh sx ss sl2 sr2 sb _ sl hslf ?_
          rw [← hsave]
          exact balFresh_childFresh _ hsavef
      have hstep : ∀ (sv : NTree) (iv : Interval) (rr : NTree),
          sv.balFresh = true →
          (if sv.center_hit iv = true then
            if ¬ (sv.get
                (!decide ((NTree.node x s l r b).balance > 0))).isNode
                  = true then do
              throw "AttributeError"
              let svl2 ← NTree.remove n (sv.get
                (!decide ((NTree.node x s l r b).balance > 0))) iv
              let sv2 ← NTree.add n
                (if ((sv.set
                    (!decide ((NTree.node x s l r b).balance > 0))
                    svl2).get
                    (!decide ((NTree.node x s l r b).balance > 0))).isNode
                      = true then
                  (sv.set (!decide ((NTree.node x s l r b).balance > 0))
                    svl2).set
                    (!decide ((NTree.node x s l r b).balance > 0))
                    ((sv.set
                      (!decide ((NTree.node x s l r b).balance > 0))
                      svl2).get
                      (!decide
                        ((NTree.node x s l r b).balance > 0))).refresh_balance
                else sv.set
                  (!decide ((NTree.node x s l r b).balance > 0)) svl2)
                iv
              pure sv2.refresh_balance
            else do
              pure PUnit.unit
              let svl2 ← NTree.remove n (sv.get
                (!decide ((NTree.node x s l r b).balance > 0))) iv
              let sv2 ← NTree.add n
                (if ((sv.set
                    (!decide ((NTree.node x s l r b).balance > 0))
                    svl2).get
                    (!decide ((NTree.node x s l r b).balance > 0))).isNode
                      = true then
                  (sv.set (!decide ((NTree.node x s l r b).balance > 0))
                    svl2).set
                    (!decide ((NTree.node x s l r b).balance > 0))
                    ((sv.set
                      (!decide ((NTree.node x s l r b).balance > 0))
                      svl2).get
                      (!decide
                        ((NTree.node x s l r b).balance > 0))).refresh_balance
                else sv.set
                  (!decide ((NTree.node x s l r b).balance > 0)) svl2)
                iv
              pure sv2.refresh_balance
          else pure sv) = Except.ok rr → rr.balFresh = true := by
        intro sv iv rr hP hok
        by_cases hch : sv.center_hit iv = true
        · rw [if_pos hch] at hok
          by_cases hg : ¬ (sv.get
              (!decide ((NTree.node x s l r b).balance > 0))).isNode
                = true
          · rw [if_pos hg, except_seq_throw_ok] at hok
            exact hok.elim
          · rw [if_neg hg] at hok
            simp only [pure_bind] at hok
            rw [except_bind_ok] at hok
            obtain ⟨svl2, hrm, hok⟩ := hok
            rw [except_bind_ok] at hok
            obtain ⟨sv3, hadd, hok⟩ := hok
            rw [except_pure_ok] at hok
            rw [← hok]
            have hsvl2 : svl2.balFresh = true :=
              ihrem _ _ _ (balFresh_get _ _ hP) hrm
            cases sv with
            | nil =>
              have hgn : (NTree.nil.get
                  (!decide ((NTree.node x s l r b).balance > 0))).isNode
                    = true := by simpa using hg
              simp [NTree.get, NTree.isNode] at hgn
            | node vx vs vl vr vb =>
              have hAcf : ((NTree.node vx vs vl vr vb).set
                  (!decide ((NTree.node x s l r b).balance > 0))
                  svl2).childFresh = true :=
                set_childFresh vx vs vl vr vb _ svl2 hsvl2
                  (balFresh_childFresh _ hP)
              have hBcf : (if (((NTree.node vx vs vl vr vb).set
                  (!decide ((NTree.node x s l r b).balance > 0))
                  svl2).get
                  (!decide ((NTree.node x s l r b).balance > 0))).isNode
                    = true then
                  ((NTree.node vx vs vl vr vb).set
                    (!decide ((NTree.node x s l r b).balance > 0))
                    svl2).set
                    (!decide ((NTree.node x s l r b).balance > 0))
                    (((NTree.node vx vs vl vr vb).set
                      (!decide ((NTree.node x s l r b).balance > 0))
                      svl2).get
                      (!decide
                        ((NTree.node x s l r b).balance > 0))).refresh_balance
                else (NTree.node vx vs vl vr vb).set
                  (!decide ((NTree.node x s l r b).balance > 0))
                  svl2).childFresh = true := by
                by_cases hrn : (((NTree.node vx vs vl vr vb).set
                    (!decide ((NTree.node x s l r b).balance > 0))
                    svl2).get
                    (!decide ((NTree.node x s l r b).balance > 0))).isNode
                      = true
                · rw [if_pos hrn]
                  cases hA : (NTree.node vx vs vl vr vb).set
                      (!decide ((NTree.node x s l r b).balance > 0))
                      svl2 with
                  | nil =>
                    rw [hA] at hAcf
                    exact hAcf
                  | node ax as2 al ar ab =>
                    rw [hA] at hAcf
                    refine set_childFresh ax as2 al ar ab _ _ ?_ hAcf
                    refine refresh_balance_fresh _ ?_
                    exact balFresh_childFresh _ (childFresh_get _ _ hAcf)
                · rw [if_neg hrn]
                  exact hAcf
              have hBch : (if (((NTree.node vx vs vl vr vb).set
                  (!decide ((NTree.node x s l r b).balance > 0))
                  svl2).get
                  (!decide ((NTree.node x s l r b).balance > 0))).isNode
                    = true then
                  ((NTree.node vx vs vl vr vb).set
                    (!decide ((NTree.node x s l r b).balance > 0))
                    svl2).set
                    (!decide ((NTree.node x s l r b).balance > 0))
                    (((NTree.node vx vs vl vr vb).set
                      (!decide ((NTree.node x s l r b).balance > 0))
                      svl2).get
                      (!decide
                        ((NTree.node x s l r b).balance > 0))).refresh_balance
                else (NTree.node vx vs vl vr vb).set
                  (!decide ((NTree.node x s l r b).balance > 0))
                  svl2).center_hit iv = true := by
                by_cases hrn : (((NTree.node vx vs vl vr vb).set
                    (!decide ((NTree.node x s l r b).balance > 0))
                    svl2).get
                    (!decide ((NTree.node x s l r b).balance > 0))).isNode
                      = true
                · rw [if_pos hrn]
                  cases hL : (!decide ((NTree.node x s l r b).balance > 0))
                  · simpa [NTree.set, NTree.center_hit, NTree.x_center]
                      using hch
                  · simpa [NTree.set, NTree.center_hit, NTree.x_center]
                      using hch
                · rw [if_neg hrn]
                  rw [set_center_hit]
                  exact hch
              refine refresh_balance_fresh _ ?_
              exact add_center_hit_childFresh n _ iv sv3 hBch hBcf hadd
        · rw [if_neg hch, except_pure_ok] at hok
          rw [← hok]
          exact hP
      cases hsnap : sl.centersAt (((NTree.node x s l r b).set
          (decide ((NTree.node x s l r b).balance > 0))
          (((NTree.node x s l r b).get
            (decide ((NTree.node x s l r b).balance > 0))).get
            (!decide ((NTree.node x s l r b).balance > 0)))).x_center) with
      | nil =>
        rw [hsnap] at h
        simp only [pure_bind] at h
        rw [except_bind_ok] at h
        obtain ⟨save2, hfold, h⟩ := h
        rw [except_pure_ok] at h
        rw [← h]
        exact foldlM_except_inv (fun sv => sv.balFresh = true) _ _ _ save2
          (fun sv iv rr hP hok => hstep sv iv rr hP hok) hstart hfold
      | cons s1 rest =>
        cases rest with
        | nil =>
          rw [hsnap] at h
          simp only [pure_bind] at h
          rw [except_bind_ok] at h
          obtain ⟨save2, hfold, h⟩ := h
          rw [except_pure_ok] at h
          rw [← h]
          exact foldlM_except_inv (fun sv => sv.balFresh = true) _ _ _
            save2 (fun sv iv rr hP hok => hstep sv iv rr hP hok) hstart
            hfold
        | cons s2 rest2 =>
          rw [hsnap] at h
          rw [except_seq_throw_ok] at h
          exact h.elim

/-- One fuel step of balance freshness for `drotate`. -/
theorem drotate_fresh_step (n : Nat)
    (ihsrot : ∀ t t', t.childFresh = true →
      NTree.srotate n t = Except.ok t' → t'.balFresh = true) :
    ∀ t t', t.childFresh = true →
      NTree.drotate (n + 1) t = Except.ok t' → t'.balFresh = true := by
  intro t t' hcf h
  simp only [NTree.drotate] at h
  rw [except_bind_ok] at h
  obtain ⟨child, hch, h⟩ := h
  cases t with
  | nil => exact absurd hch (fun hc => srotate_nil n child
      (by simpa [NTree.get] using hc))
  | node x s l r b =>
    have hchf : child.balFresh = true := by
      refine ihsrot _ _ ?_ hch
      exact balFresh_childFresh _ (childFresh_get _ _ hcf)
    refine ihsrot _ _ ?_ h
    refine refresh_balance_childFresh _ ?_
    exact set_childFresh x s l r b _ child hchf hcf

/-- Balance freshness is preserved by every fueled `Node` operation. -/
theorem freshAll : ∀ (n : Nat),
    (∀ t t', t.childFresh = true →
      NTree.rotate n t = Except.ok t' → t'.balFresh = true) ∧
    (∀ t t', t.childFresh = true →
      NTree.srotate n t = Except.ok t' → t'.balFresh = true) ∧
    (∀ t t', t.childFresh = true →
      NTree.drotate n t = Except.ok t' → t'.balFresh = true) ∧
    (∀ t iv t', t.balFresh = true →
      NTree.add n t iv = Except.ok t' → t'.balFresh = true) ∧
    (∀ t iv sr out, t.balFresh = true →
      NTree.remove_interval_helper n t iv sr = Except.ok out →
      out.1.balFresh = true ∧ (out.2 = true → out.1.shape = t.shape)) ∧
    (∀ t t', t.balFresh = true →
      NTree.prune n t = Except.ok t' → t'.balFresh = true) ∧
    (∀ t out, t.balFresh = true →
      NTree.pop_greatest_child n t = Except.ok out →
      out.1.balFresh = true ∧ out.2.balFresh = true) ∧
    (∀ l t', NTree.from_intervals n l = Except.ok t' →
      t'.balFresh = true) ∧
    (∀ l t', NTree.init_from_sorted n l = Except.ok t' →
      t'.balFresh = true) ∧
    (∀ t iv t', t.balFresh = true →
      NTree.remove n t iv = Except.ok t' → t'.balFresh = true) ∧
    (∀ t iv t', t.balFresh = true →
      NTree.discardNode n t iv = Except.ok t' → t'.balFresh = true) := by
  intro n
  induction n with
  | zero =>
    refine ⟨?_, ?_, ?_, ?_, ?_, ?_, ?_, ?_, ?_, ?_, ?_⟩
    · intro t t' _ h; simp only [NTree.rotate, except_throw_ok] at h
    · intro t t' _ h; simp only [NTree.srotate, except_throw_ok] at h
    · intro t t' _ h; simp only [NTree.drotate, except_throw_ok] at h
    · intro t iv t' _ h; simp only [NTree.add, except_throw_ok] at h
    · intro t iv sr out _ h
      simp only [NTree.remove_interval_helper, except_throw_ok] at h
    · intro t t' _ h; simp only [NTree.prune, except_throw_ok] at h
    · intro t out _ h
      simp only [NTree.pop_greatest_child, except_throw_ok] at h
    · intro l t' h; simp only [NTree.from_intervals, except_throw_ok] at h
    · intro l t' h
      simp only [NTree.init_from_sorted, except_throw_ok] at h
    · intro t iv t' _ h; simp only [NTree.remove, except_throw_ok] at h
    · intro t iv t' _ h
      simp only [NTree.discardNode, except_throw_ok] at h
  | succ n ih =>
    obtain ⟨ihrot, ihsrot, ihdrot, ihadd, ihhel, ihprune, ihpop, ihfrom,
      ihinit, ihrem, ihdis⟩ := ih
    have hrm := remove_fresh_step n ihhel
    exact ⟨rotate_fresh_step n ihsrot ihdrot,
      srotate_fresh_step n ihrot ihrem,
      drotate_fresh_step n ihsrot,
      add_fresh_step n ihadd ihrot,
      helper_fresh_step n ihhel ihprune ihrot,
      prune_fresh_step n ihpop ihrot,
      pop_fresh_step n ihpop ihrot ihadd ihprune ihfrom,
      from_intervals_fresh_step n ihinit,
      init_from_sorted_fresh_step n ihfrom ihrot,
      hrm.1, hrm.2⟩

/-- C4 amended: each public mutator (`add`, `addi`, `remove`,
`removei`, `discard`) that completes preserves balance freshness:
every node's `balance` field equals the presence-based value that
`refresh_balance` computes from its current children - not the depth
difference of its subtrees, and not a value bounded by 1 in absolute
value (see the counterexample for both). -/
theorem c4_balance_presence_based (fuel : Nat) (t : IntervalTree)
    (h : t.top_node.balFresh = true) :
    (∀ iv t', t.add fuel iv = Except.ok t' →
      t'.top_node.balFresh = true) ∧
    (∀ b e d t', t.addi fuel b e d = Except.ok t' →
      t'.top_node.balFresh = true) ∧
    (∀ iv t', t.remove fuel iv = Except.ok t' →
      t'.top_node.balFresh = true) ∧
    (∀ b e d t', t.removei fuel b e d = Except.ok t' →
      t'.top_node.balFresh = true) ∧
    (∀ iv t', t.discard fuel iv = Except.ok t' →
      t'.top_node.balFresh = true) := by
  have hadd : ∀ iv t', t.add fuel iv = Except.ok t' →
      t'.top_node.balFresh = true := by
    intro iv t' hs
    simp only [IntervalTree.add] at hs
    by_cases hmem : iv ∈ t.all_intervals
    · rw [if_pos hmem, except_pure_ok] at hs
      rw [← hs]
      exact h
    · rw [if_neg hmem] at hs
      by_cases hnil : ¬ t.top_node.isNode = true
      · rw [if_pos hnil] at hs
        simp only [pure_bind, except_pure_ok] at hs
        rw [← hs]
        exact from_interval_fresh _
      · rw [if_neg hnil, except_bind_ok] at hs
        obtain ⟨top2, htop2, hs⟩ := hs
        rw [except_pure_ok] at hs
        rw [← hs]
        exact (freshAll fuel).2.2.2.1 _ _ _ h htop2
  have hrem : ∀ iv t', t.remove fuel iv = Except.ok t' →
      t'.top_node.balFresh = true := by
    intro iv t' hs
    simp only [IntervalTree.remove] at hs
    by_cases hmem : iv ∉ t.all_intervals
    · rw [if_pos hmem, except_throw_ok] at hs
      exact hs.elim
    · rw [if_neg hmem] at hs
      by_cases hnil : ¬ t.top_node.isNode = true
      · rw [if_pos hnil, except_seq_throw_ok] at hs
        exact hs.elim
      · rw [if_neg hnil, except_bind_ok] at hs
        obtain ⟨top2, htop2, hs⟩ := hs
        have htf : top2.balFresh = true :=
          (freshAll fuel).2.2.2.2.2.2.2.2.2.1 _ _ _ h htop2
        cases hb : removeBoundaries iv t.boundary_table with
        | none =>
          rw [hb] at hs
          simp only [except_throw_ok] at hs
        | some bt2 =>
          rw [hb] at hs
          rw [except_pure_ok] at hs
          rw [← hs]
          exact htf
  have hdis : ∀ iv t', t.discard fuel iv = Except.ok t' →
      t'.top_node.balFresh = true := by
    intro iv t' hs
    simp only [IntervalTree.discard] at hs
    by_cases hmem : iv ∉ t.all_intervals
    · rw [if_pos hmem, except_pure_ok] at hs
      rw [← hs]
      exact h
    · rw [if_neg hmem] at hs
      by_cases hnil : ¬ t.top_node.isNode = true
      · rw [if_pos hnil, except_seq_throw_ok] at hs
        exact hs.elim
      · rw [if_neg hnil, except_bind_ok] at hs
        obtain ⟨top2, htop2, hs⟩ := hs
        have htf : top2.balFresh = true :=
          (freshAll fuel).2.2.2.2.2.2.2.2.2.2 _ _ _ h htop2
        cases hb : removeBoundaries iv t.boundary_table with
        | none =>
          rw [hb] at hs
          simp only [except_throw_ok] at hs
        | some bt2 =>
          rw [hb] at hs
          rw [except_pure_ok] at hs
          rw [← hs]
          exact htf
  exact ⟨hadd, fun b e d t' hs => hadd _ _ hs,
    hrem, fun b e d t' hs => hrem _ _ hs, hdis⟩

/-- C4 witness: the amended theorem applied to the first insertion
into the empty tree. -/
theorem c4_balance_presence_based_witness :
    IntervalTree.empty.top_node.balFresh = true ∧
    IntervalTree.empty.addi 60 1 2 none = Except.ok
      ⟨[⟨1, 2, none⟩],
        NTree.node 1 [⟨1, 2, none⟩] NTree.nil NTree.nil 0,
        [(1, 1), (2, 1)]⟩ ∧
    (⟨[⟨1, 2, none⟩],
        NTree.node 1 [⟨1, 2, none⟩] NTree.nil NTree.nil 0,
        [(1, 1), (2, 1)]⟩ : IntervalTree).top_node.balFresh = true :=
  ⟨rfl, rfl,
    (c4_balance_presence_based 60 IntervalTree.empty rfl).2.1 1 2 none
      ⟨[⟨1, 2, none⟩],
        NTree.node 1 [⟨1, 2, none⟩] NTree.nil NTree.nil 0,
        [(1, 1), (2, 1)]⟩ rfl⟩

end ITree
